import Mathlib

/-!
Verification of the LinkedIn-post ingestion repository.

Part A embeds the fuzzy content filter of
`src/test_content_filter_enhanced.py` (function
`test_content_filter_enhanced` together with `create_searchable_text`).
Python string primitives (`str.lower`, `str.strip`, `str.split` with no
separator) are embedded at the `List Char` level, restricted to the ASCII
whitespace characters recognised by `Char.isWhitespaceʼ`-style predicates.
The external library score `rapidfuzz.fuzz` is a parameter `pr` of the
embedding: the filter's logic is verified for every score function.

Part B embeds the ingestion pipeline of `src/manage_data.py`
(`get_post_urn`, `import_directory`, `create_download_run`,
`complete_download_run`) over an explicit relational store.
-/

namespace Spec2Proof

/-! ## Part A: fuzzy content filter -/

/-- A corpus record, with exactly the fields the filter reads:
`post.get('text')` and `post.get('author_username')` (both optional in a
Python dict), plus an identifier standing for the rest of the row. -/
structure FPost where
  post_id : String
  text : Option String
  author_username : Option String
  deriving Repr, DecidableEq

/-- Python `s.lower()` (ASCII case folding, as `Char.toLower`). -/
def pyLower (s : String) : String :=
  String.mk (s.data.map Char.toLower)

/-- `List`-level body of Python `s.strip()`: drop whitespace from both ends. -/
def stripL (l : List Char) : List Char :=
  ((l.dropWhile Char.isWhitespace).reverse.dropWhile Char.isWhitespace).reverse

/-- Python `s.strip()`. -/
def pyStrip (s : String) : String :=
  String.mk (stripL s.data)

/-- Accumulator worker for Python `s.split()` with no separator: `acc`
holds the reversed characters of the word currently being scanned. -/
def wordsAux : List Char → List Char → List (List Char)
  | [], [] => []
  | [], a :: as => [(a :: as).reverse]
  | c :: cs, acc =>
    if c.isWhitespace then
      match acc with
      | [] => wordsAux cs []
      | a :: as => (a :: as).reverse :: wordsAux cs []
    else wordsAux cs (c :: acc)

/-- `List`-level body of Python `s.split()` with no separator: split on runs
of whitespace, never producing empty words. -/
def wordsL (l : List Char) : List (List Char) :=
  wordsAux l []

/-- Reasoning twin of `wordsL`, phrased with `takeWhile`/`dropWhile`
(proved equal to `wordsL` below). -/
def wordsLW : List Char → List (List Char)
  | [] => []
  | c :: cs =>
    if Char.isWhitespace c then wordsLW cs
    else
      (c :: cs).takeWhile (fun x => !x.isWhitespace) ::
        wordsLW (cs.dropWhile (fun x => !x.isWhitespace))
termination_by l => l.length
decreasing_by
  · simp
  · simp only [List.length_cons]
    exact Nat.lt_succ_of_le (List.dropWhile_sublist _).length_le

/-- Python `s.split()`. -/
def pySplit (s : String) : List String :=
  (wordsL s.data).map String.mk

/-- `create_searchable_text` from `src/test_content_filter_enhanced.py`:
join the record's present `text` and `author_username` fields with a single
space, then lower-case. -/
def create_searchable_text (post : FPost) : String :=
  let parts₀ : List String := match post.text with
    | some t => [t]
    | none => []
  let parts : List String := match post.author_username with
    | some a => parts₀ ++ [a]
    | none => parts₀
  pyLower (String.intercalate " " parts)

/-- `test_content_filter_enhanced` from
`src/test_content_filter_enhanced.py`.  `pr` stands for the external
`rapidfuzz` score `fuzz` uses (a 0-100 similarity); the function is
otherwise a line-by-line translation: empty query returns the corpus;
otherwise lower-case and strip the query, split it into words, and keep a
record when the single word (resp. every word) scores at least
`threshold` against the record's searchable text. -/
def test_content_filter_enhanced (pr : String → String → Nat)
    (filter_text : String) (posts : List FPost) (threshold : Nat) :
    List FPost :=
  if filter_text = "" then posts
  else
    let filter_lower := pyStrip (pyLower filter_text)
    let filter_words := pySplit filter_lower
    posts.filter (fun post =>
      let searchable := create_searchable_text post
      if filter_words.length = 1 then
        decide (threshold ≤ pr filter_lower searchable)
      else
        filter_words.all (fun w => decide (threshold ≤ pr w searchable)))

/-! ## Part B: ingestion pipeline (`src/manage_data.py`)

The store is an explicit record of three tables.  Row insertion is
fallible (`Option`), failing exactly when one of the schema constraints
would be violated; a `none` result models `sqlite3.IntegrityError`.
The identifier generator `generate_aws_id` draws cryptographically random
tokens; it is embedded as a supply `gen : Nat → String` read at an
explicit counter, one draw per call.  Wall-clock timestamps
(`datetime.now().isoformat()`) are embedded as an explicit `now : String`
argument. -/

/-- The `stats` dictionary accumulated by `import_directory`. -/
structure Stats where
  processed : Nat
  new : Nat
  duplicates : Nat
  errors : Nat
  deriving Repr, DecidableEq

/-- The document's `stats` sub-dictionary (`post.get('stats', {})`);
only `total_reactions` is ever promoted. -/
structure StatsData where
  total_reactions : Option Int
  deriving Repr, DecidableEq

/-- The `urn` field of a document: either a scalar value or a composite
dictionary with optional `activity_urn` / `ugcPost_urn` entries. -/
inductive UrnVal where
  | scalar (s : String)
  | composite (activity_urn : Option String) (ugcPost_urn : Option String)
  deriving Repr, DecidableEq

/-- The `author` sub-dictionary of a document. -/
structure AuthorVal where
  username : Option String
  deriving Repr, DecidableEq

/-- The `posted_at` sub-dictionary of a document. -/
structure PostedAtVal where
  timestamp : Option Int
  deriving Repr, DecidableEq

/-- One post document, with exactly the fields `import_directory` and
`get_post_urn` read; every field a Python `dict.get` can miss is an
`Option`.  The verbatim `json.dumps(post)` payload is represented by the
document value itself. -/
structure PostDoc where
  full_urn : Option String
  urn : Option UrnVal
  author : Option AuthorVal
  text : Option String
  posted_at : Option PostedAtVal
  post_type : Option String
  url : Option String
  stats : Option StatsData
  deriving Repr, DecidableEq

/-- A row of the `posts` table. -/
structure PostRow where
  post_id : String
  urn : String
  full_urn : Option String
  platform : String
  posted_at_timestamp : Option Int
  author_username : String
  text_content : String
  post_type : String
  url : Option String
  raw_json : PostDoc
  first_seen_at : String
  is_read : Bool
  is_marked : Bool
  created_at : String
  updated_at : String
  deriving Repr, DecidableEq

/-- A row of the `data_downloads` table (an Observation). -/
structure DownloadRow where
  download_id : String
  post_id : String
  run_id : String
  downloaded_at : String
  total_reactions : Int
  stats_json : Option StatsData
  raw_json : PostDoc
  source_file_path : String
  created_at : String
  deriving Repr, DecidableEq

/-- A row of the `download_runs` table. -/
structure RunRow where
  run_id : String
  started_at : String
  completed_at : Option String
  status : String
  script_name : String
  platform : String
  system_info : String
  posts_fetched : Option Nat
  posts_new : Option Nat
  posts_updated : Option Nat
  error_message : Option String
  created_at : String
  deriving Repr, DecidableEq

/-- The SQLite store `data/posts_v2.db`. -/
structure DB where
  posts : List PostRow
  downloads : List DownloadRow
  runs : List RunRow
  deriving Repr, DecidableEq

/-- Is `i` already a `post_id` (primary key of `posts`)? -/
def postIdTaken (db : DB) (i : String) : Bool :=
  db.posts.any (fun p => p.post_id == i)

/-- Is `u` already a `urn` in `posts`? -/
def urnTaken (db : DB) (u : String) : Bool :=
  db.posts.any (fun p => p.urn == u)

/-- Is `i` already a `download_id` (primary key of `data_downloads`)? -/
def downloadIdTaken (db : DB) (i : String) : Bool :=
  db.downloads.any (fun d => d.download_id == i)

/-- Is `i` already a `run_id` (primary key of `download_runs`)? -/
def runIdTaken (db : DB) (i : String) : Bool :=
  db.runs.any (fun r => r.run_id == i)

/-- Modelled from the spec: the schema DDL (created by the migration
script, which is not under `src/`) declares `posts` with primary key
`post_id` and a UNIQUE constraint on `urn` (§6: `Post { id PK, urn
UNIQUE, ... }`).  An insert violating either raises
`sqlite3.IntegrityError`, embedded as `none`. -/
def insertPost (db : DB) (p : PostRow) : Option DB :=
  if postIdTaken db p.post_id || urnTaken db p.urn then none
  else some { db with posts := db.posts ++ [p] }

/-- Modelled from the spec: `data_downloads` has primary key
`download_id` and foreign keys `post_id`, `run_id` (§6), enforced
because `get_connection` runs `PRAGMA foreign_keys = ON`
(`src/manage_data.py`).  A violating insert raises
`sqlite3.IntegrityError`, embedded as `none`. -/
def insertDownload (db : DB) (d : DownloadRow) : Option DB :=
  if downloadIdTaken db d.download_id
      || !db.posts.any (fun p => p.post_id == d.post_id)
      || !db.runs.any (fun r => r.run_id == d.run_id) then none
  else some { db with downloads := db.downloads ++ [d] }

/-- Modelled from the spec: `download_runs` has primary key `run_id`
(§6); a violating insert raises `sqlite3.IntegrityError`, embedded as
`none`. -/
def insertRun (db : DB) (r : RunRow) : Option DB :=
  if runIdTaken db r.run_id then none
  else some { db with runs := db.runs ++ [r] }

/-- Python truthiness of an optional string (`if not urn: ...`). -/
def truthyOptStr : Option String → Bool
  | none => false
  | some s => !(s == "")

/-- `get_post_urn` from `src/manage_data.py`.  Returns the raw Python
value: `none` for `None`, and possibly `some ""` (Python distinguishes
the two only by truthiness, which the caller tests). -/
def get_post_urn (post : PostDoc) : Option String :=
  let urn := post.full_urn
  if truthyOptStr urn then urn
  else
    match post.urn with
    | none => urn
    | some (.scalar s) => some s
    | some (.composite a u) =>
        match a with
        | some s => if s = "" then u else some s
        | none => u

/-- The resolved identity of a document: its URN when resolution yields a
truthy value, `none` otherwise. -/
def urnKey (doc : PostDoc) : Option String :=
  match get_post_urn doc with
  | some s => if s = "" then none else some s
  | none => none

/-- The `posts` row built by `import_directory` for a new document. -/
def mkPostRow (pid u : String) (doc : PostDoc) (now : String) : PostRow where
  post_id := pid
  urn := u
  full_urn := doc.full_urn
  platform := "linkedin"
  posted_at_timestamp := doc.posted_at.bind (fun pa => pa.timestamp)
  author_username := (doc.author.bind (fun a => a.username)).getD ""
  text_content := doc.text.getD ""
  post_type := doc.post_type.getD "regular"
  url := doc.url
  raw_json := doc
  first_seen_at := now
  is_read := false
  is_marked := false
  created_at := now
  updated_at := now

/-- The `data_downloads` row built by `import_directory` for a document. -/
def mkDownloadRow (did pid rid : String) (doc : PostDoc) (fpath now : String) :
    DownloadRow where
  download_id := did
  post_id := pid
  run_id := rid
  downloaded_at := now
  total_reactions := (doc.stats.bind (fun s => s.total_reactions)).getD 0
  stats_json := doc.stats
  raw_json := doc
  source_file_path := fpath
  created_at := now

/-- The `download_runs` row inserted by `create_download_run`; the
`system_info` JSON (hostname etc.) is environment data represented by a
placeholder. -/
def mkRunRow (rid now : String) : RunRow where
  run_id := rid
  started_at := now
  completed_at := none
  status := "running"
  script_name := "manage_data.py"
  platform := "linkedin"
  system_info := "{}"
  posts_fetched := none
  posts_new := none
  posts_updated := none
  error_message := none
  created_at := now

/-- The `data_downloads` insertion step shared by the new-post and
duplicate branches of `import_directory` (lines 214-240): build the row,
attempt the insert, and on `IntegrityError` count one error and keep the
store as it was (no rollback of a just-inserted post). -/
def attachDownload (gen : Nat → String) (rid fpath now pid : String)
    (doc : PostDoc) (db : DB) (st : Stats) (ctr : Nat) : DB × Stats × Nat :=
  let did := gen ctr
  match insertDownload db (mkDownloadRow did pid rid doc fpath now) with
  | some db2 => (db2, st, ctr + 1)
  | none => (db, { st with errors := st.errors + 1 }, ctr + 1)

/-- The body of `import_directory`'s `for post in data:` loop
(lines 154-240): count the document, resolve its URN (treating a falsy
result as unresolvable), then look up / insert the post and record the
observation. -/
def processDoc (gen : Nat → String) (rid fpath now : String)
    (acc : DB × Stats × Nat) (doc : PostDoc) : DB × Stats × Nat :=
  let (db, st0, ctr) := acc
  let st := { st0 with processed := st0.processed + 1 }
  match get_post_urn doc with
  | none => (db, { st with errors := st.errors + 1 }, ctr)
  | some u =>
    if u = "" then (db, { st with errors := st.errors + 1 }, ctr)
    else
      match db.posts.find? (fun p => p.urn == u) with
      | some p =>
          attachDownload gen rid fpath now p.post_id doc db
            { st with duplicates := st.duplicates + 1 } ctr
      | none =>
          let pid := gen ctr
          match insertPost db (mkPostRow pid u doc now) with
          | none => (db, { st with errors := st.errors + 1 }, ctr + 1)
          | some db1 =>
              attachDownload gen rid fpath now pid doc db1
                { st with new := st.new + 1 } (ctr + 1)

/-- The parsed content of one `*.json` file: a JSON array of documents, a
single JSON object, valid JSON of any other top-level shape, or a file
`json.load` fails on. -/
inductive FileContent where
  | arr (docs : List PostDoc)
  | obj (doc : PostDoc)
  | other
  | invalid
  deriving Repr, DecidableEq

/-- One file of the import directory. -/
structure JsonFile where
  path : String
  content : FileContent
  deriving Repr, DecidableEq

/-- The documents a file contributes to the per-document loop. -/
def fileDocs : FileContent → List PostDoc
  | .arr ds => ds
  | .obj d => [d]
  | .other => []
  | .invalid => []

/-- The body of `import_directory`'s `for fpath in files:` loop
(lines 142-244): a file `json.load` raises on is one error; valid JSON
of the wrong top-level shape is skipped by `continue`; an array (or a
single object, wrapped as a one-element array) runs the document loop. -/
def processFile (gen : Nat → String) (rid now : String)
    (acc : DB × Stats × Nat) (f : JsonFile) : DB × Stats × Nat :=
  match f.content with
  | .invalid =>
      let (db, st, ctr) := acc
      (db, { st with errors := st.errors + 1 }, ctr)
  | .other => acc
  | .arr ds => ds.foldl (processDoc gen rid f.path now) acc
  | .obj d => [d].foldl (processDoc gen rid f.path now) acc

/-- `import_directory` from `src/manage_data.py`.  When no `run_id` is
supplied it first runs `create_download_run`, whose un-guarded insert
propagates an `IntegrityError` out of the whole call (`none`); with a
supplied `run_id` the call always returns.  Returns the statistics, the
run id, the final store and the final generator counter. -/
def import_directory (db : DB) (files : List JsonFile)
    (runId : Option String) (gen : Nat → String) (ctr : Nat) (now : String) :
    Option (Stats × String × DB × Nat) :=
  match runId with
  | some rid =>
      let r := files.foldl (processFile gen rid now) (db, ⟨0, 0, 0, 0⟩, ctr)
      some (r.2.1, rid, r.1, r.2.2)
  | none =>
      let rid := gen ctr
      match insertRun db (mkRunRow rid now) with
      | none => none
      | some db0 =>
          let r := files.foldl (processFile gen rid now) (db0, ⟨0, 0, 0, 0⟩, ctr + 1)
          some (r.2.1, rid, r.1, r.2.2)

/-- The row update performed by `complete_download_run`'s SQL
`UPDATE ... WHERE run_id = ?`: Python's `'failed' if error_message or
stats['errors'] > 0 else 'completed'` derives the status, where an
absent or empty `error_message` is falsy. -/
def updateRunRow (st : Stats) (em : Option String) (now rid : String)
    (r : RunRow) : RunRow :=
  if r.run_id == rid then
    { r with
      completed_at := some now
      status := if truthyOptStr em || decide (0 < st.errors) then "failed"
                else "completed"
      posts_fetched := some st.processed
      posts_new := some st.new
      posts_updated := some 0
      error_message := em }
  else r

/-- `complete_download_run` from `src/manage_data.py`: run the UPDATE on
every matching row and commit.  The body has no failure path (a `none`
result would model an uncaught Python exception; none exists). -/
def complete_download_run (db : DB) (rid : String) (st : Stats)
    (em : Option String) (now : String) : Option DB :=
  some { db with runs := db.runs.map (updateRunRow st em now rid) }

/-- All documents a list of files yields, in processing order. -/
def allDocs (files : List JsonFile) : List PostDoc :=
  (files.map (fun f => fileDocs f.content)).flatten

/-- How many documents of a list resolve to a (truthy) URN. -/
def countResolvable (docs : List PostDoc) : Nat :=
  (docs.filter (fun d => (urnKey d).isSome)).length

/-- `i` collides with no identifier already stored in `db`. -/
def IdFree (db : DB) (i : String) : Prop :=
  (∀ p ∈ db.posts, p.post_id ≠ i) ∧ (∀ d ∈ db.downloads, d.download_id ≠ i) ∧
    (∀ r ∈ db.runs, r.run_id ≠ i)

/-- The generator supply is collision-free over `db`: pairwise distinct
draws, none equal to an identifier already in `db`.  `generate_aws_id`
draws 8 random hex digits per call; this is the (overwhelmingly likely)
collision-free outcome. -/
def FreshGen (gen : Nat → String) (db : DB) : Prop :=
  (∀ i j : Nat, i ≠ j → gen i ≠ gen j) ∧ ∀ n : Nat, IdFree db (gen n)

/-- `db` evolved from `db0` with generator draws `gen c0, ..., gen (c-1)`:
every post/download row is either original or carries a drawn identifier,
and the runs table is untouched. -/
def Evolves (gen : Nat → String) (db0 : DB) (c0 : Nat) (db : DB) (c : Nat) :
    Prop :=
  c0 ≤ c ∧
    (∀ p ∈ db.posts, p ∈ db0.posts ∨ ∃ k, c0 ≤ k ∧ k < c ∧ p.post_id = gen k) ∧
    (∀ d ∈ db.downloads,
      d ∈ db0.downloads ∨ ∃ k, c0 ≤ k ∧ k < c ∧ d.download_id = gen k) ∧
    db.runs = db0.runs

/-- A concrete single-record document (a bare `full_urn`), for witnesses. -/
def exDoc : PostDoc :=
  ⟨some "urn:li:1", none, none, none, none, none, none, none⟩

/-- A concrete collision-free generator supply: draw `n` is the string of
`n + 1` letters `x`. -/
def exGen : Nat → String := fun n => String.mk (List.replicate (n + 1) 'x')

/-- An empty store holding one running Run row. -/
def exDB0 : DB := ⟨[], [], [mkRunRow "run-1" "t0"]⟩

/-- A directory holding one single-record file. -/
def exFiles : List JsonFile := [⟨"a.json", FileContent.arr [exDoc]⟩]

/-- The store after importing `exFiles` once into `exDB0`. -/
def exDB1 : DB :=
  ⟨[mkPostRow "x" "urn:li:1" exDoc "t1"],
    [mkDownloadRow "xx" "x" "run-1" exDoc "a.json" "t1"],
    [mkRunRow "run-1" "t0"]⟩

/-- The store after importing `exFiles` a second time. -/
def exDB2 : DB :=
  ⟨[mkPostRow "x" "urn:li:1" exDoc "t1"],
    [mkDownloadRow "xx" "x" "run-1" exDoc "a.json" "t1",
      mkDownloadRow "xxx" "x" "run-1" exDoc "a.json" "t2"],
    [mkRunRow "run-1" "t0"]⟩

/-! ## Lemmas about the string primitives -/

lemma dropWhile_of_all_neg {p : Char → Bool} {r : List Char}
    (h : ∀ x ∈ r, p x = false) : r.dropWhile p = r := by
  cases r with
  | nil => rfl
  | cons c cs => rw [List.dropWhile_cons, h c (by simp)]; simp

lemma takeWhile_nil_of_all_neg {p : Char → Bool} {s : List Char}
    (h : ∀ x ∈ s, p x = false) : s.takeWhile p = [] := by
  cases s with
  | nil => rfl
  | cons c cs => rw [List.takeWhile_cons, h c (by simp)]; simp

lemma wordsLW_eq_nil_iff {l : List Char} :
    wordsLW l = [] ↔ ∀ x ∈ l, x.isWhitespace = true := by
  induction l with
  | nil => simp [wordsLW]
  | cons c cs ih =>
    by_cases hc : c.isWhitespace
    · simp [wordsLW, hc, ih]
    · simp [wordsLW, hc]

lemma wordsLW_append_ws {s : List Char}
    (hs : ∀ x ∈ s, x.isWhitespace = true) (l : List Char) :
    wordsLW (l ++ s) = wordsLW l := by
  have H : ∀ n (l : List Char), l.length ≤ n → wordsLW (l ++ s) = wordsLW l := by
    intro n
    induction n with
    | zero =>
      intro l hl
      have : l = [] := List.length_eq_zero.mp (Nat.le_zero.mp hl)
      subst this
      simp [wordsLW, wordsLW_eq_nil_iff.mpr hs]
    | succ n ih =>
      intro l hl
      match l with
      | [] => simp [wordsLW, wordsLW_eq_nil_iff.mpr hs]
      | c :: cs =>
        have hcs : cs.length ≤ n := by simpa using Nat.lt_succ_iff.mp hl
        by_cases hc : c.isWhitespace
        · rw [List.cons_append, wordsLW, if_pos hc, wordsLW, if_pos hc]
          exact ih cs hcs
        · have hnws : (fun x => !x.isWhitespace) c = true := by simp [hc]
          rw [List.cons_append, wordsLW, if_neg hc, wordsLW, if_neg hc]
          rw [List.takeWhile_cons, List.takeWhile_cons, if_pos hnws, if_pos hnws]
          by_cases hfull :
              (cs.takeWhile (fun x => !x.isWhitespace)).length = cs.length
          · have htw : cs.takeWhile (fun x => !x.isWhitespace) = cs :=
              (List.takeWhile_prefix _).eq_of_length hfull
            have hdw : cs.dropWhile (fun x => !x.isWhitespace) = [] := by
              have h2 := List.takeWhile_append_dropWhile
                (p := fun x => !x.isWhitespace) (l := cs)
              rw [htw] at h2
              simpa using h2
            have htws : s.takeWhile (fun x => !x.isWhitespace) = [] :=
              takeWhile_nil_of_all_neg (by intro x hx; simp [hs x hx])
            have hdws : s.dropWhile (fun x => !x.isWhitespace) = s :=
              dropWhile_of_all_neg (by intro x hx; simp [hs x hx])
            rw [List.takeWhile_append, if_pos hfull, htws, List.append_nil,
              List.dropWhile_append, hdw]
            simp only [List.isEmpty_nil, if_true, List.nil_append]
            rw [hdws, htw, wordsLW_eq_nil_iff.mpr hs]
            simp [wordsLW]
          · have hdwne : cs.dropWhile (fun x => !x.isWhitespace) ≠ [] := by
              intro hnil
              apply hfull
              have h2 := List.takeWhile_append_dropWhile
                (p := fun x => !x.isWhitespace) (l := cs)
              rw [hnil] at h2
              simp only [List.append_nil] at h2
              rw [h2]
            rw [List.takeWhile_append, if_neg hfull,
              List.dropWhile_append,
              if_neg (by simpa [List.isEmpty_iff] using hdwne)]
            have hlen : (cs.dropWhile (fun x => !x.isWhitespace)).length ≤ n :=
              le_trans (List.dropWhile_sublist _).length_le hcs
            rw [ih _ hlen]
  exact H l.length l le_rfl

lemma wordsLW_singleton_strip {l w : List Char} (h : wordsLW l = [w]) :
    stripL l = w := by
  induction l with
  | nil => simp [wordsLW] at h
  | cons c cs ih =>
    by_cases hc : c.isWhitespace
    · rw [wordsLW, if_pos hc] at h
      have hih := ih h
      unfold stripL at hih ⊢
      rwa [List.dropWhile_cons, if_pos hc]
    · rw [wordsLW, if_neg hc] at h
      have hw : (c :: cs).takeWhile (fun x => !x.isWhitespace) = w := by
        simpa using congrArg List.head? h
      have hrest : wordsLW (cs.dropWhile (fun x => !x.isWhitespace)) = [] := by
        simpa using congrArg List.tail h
      have hrestws : ∀ x ∈ cs.dropWhile (fun x => !x.isWhitespace),
          x.isWhitespace = true := wordsLW_eq_nil_iff.mp hrest
      have hsplit : c :: cs = w ++ cs.dropWhile (fun x => !x.isWhitespace) := by
        conv_lhs => rw [← List.takeWhile_append_dropWhile
          (p := fun x => !x.isWhitespace) (l := c :: cs)]
        rw [hw, List.dropWhile_cons, if_pos (by simp [hc])]
      have hwall : ∀ x ∈ w, x.isWhitespace = false := by
        intro x hx
        rw [← hw] at hx
        simpa using List.mem_takeWhile_imp hx
      unfold stripL
      rw [List.dropWhile_cons, if_neg hc, hsplit, List.reverse_append,
        List.dropWhile_append,
        List.dropWhile_eq_nil_iff.mpr
          (by intro x hx; exact hrestws x (List.mem_reverse.mp hx))]
      simp only [List.isEmpty_nil, if_pos]
      rw [dropWhile_of_all_neg
          (by intro x hx; exact hwall x (List.mem_reverse.mp hx)),
        List.reverse_reverse]

lemma wordsLW_dropWhile (l : List Char) :
    wordsLW (l.dropWhile Char.isWhitespace) = wordsLW l := by
  induction l with
  | nil => rfl
  | cons c cs ih =>
    by_cases hc : c.isWhitespace
    · rw [List.dropWhile_cons, if_pos hc, ih]
      rw [wordsLW, if_pos hc]
    · rw [List.dropWhile_cons, if_neg hc]

lemma wordsLW_stripL (l : List Char) : wordsLW (stripL l) = wordsLW l := by
  have hA : stripL l ++
      ((l.dropWhile Char.isWhitespace).reverse.takeWhile
        Char.isWhitespace).reverse
        = l.dropWhile Char.isWhitespace := by
    unfold stripL
    rw [← List.reverse_append, List.takeWhile_append_dropWhile,
      List.reverse_reverse]
  have ht : ∀ x ∈ ((l.dropWhile Char.isWhitespace).reverse.takeWhile
      Char.isWhitespace).reverse, x.isWhitespace = true := by
    intro x hx
    exact List.mem_takeWhile_imp (List.mem_reverse.mp hx)
  calc wordsLW (stripL l)
      = wordsLW (stripL l ++ ((l.dropWhile Char.isWhitespace).reverse.takeWhile
          Char.isWhitespace).reverse) := (wordsLW_append_ws ht _).symm
    _ = wordsLW (l.dropWhile Char.isWhitespace) := by rw [hA]
    _ = wordsLW l := wordsLW_dropWhile l

lemma wordsAux_spec (l : List Char) : ∀ acc : List Char,
    wordsAux l acc =
      match acc with
      | [] => wordsLW l
      | a :: as =>
        ((a :: as).reverse ++ l.takeWhile (fun x => !x.isWhitespace)) ::
          wordsLW (l.dropWhile (fun x => !x.isWhitespace)) := by
  induction l with
  | nil =>
    intro acc
    match acc with
    | [] => simp [wordsAux, wordsLW]
    | a :: as => simp [wordsAux, wordsLW]
  | cons c cs ih =>
    intro acc
    by_cases hc : c.isWhitespace
    · have hnws : (fun x => !x.isWhitespace) c = false := by simp [hc]
      match acc with
      | [] =>
        simp only [wordsAux, if_pos hc]
        rw [ih []]
        rw [wordsLW, if_pos hc]
      | a :: as =>
        simp only [wordsAux, if_pos hc]
        rw [ih []]
        rw [List.takeWhile_cons, if_neg (by simp [hc]),
          List.dropWhile_cons, if_neg (by simp [hc])]
        rw [wordsLW, if_pos hc]
        simp [wordsLW, hc]
    · have hnws : (fun x => !x.isWhitespace) c = true := by simp [hc]
      match acc with
      | [] =>
        simp only [wordsAux, if_neg hc]
        rw [ih [c]]
        rw [wordsLW, if_neg hc]
        rw [List.takeWhile_cons, if_pos hnws]
        simp
      | a :: as =>
        simp only [wordsAux, if_neg hc]
        rw [ih (c :: a :: as)]
        rw [List.takeWhile_cons, if_pos hnws,
          List.dropWhile_cons, if_pos hnws]
        simp

lemma wordsL_eq_wordsLW (l : List Char) : wordsL l = wordsLW l := by
  rw [wordsL, wordsAux_spec l []]

/-- Splitting is insensitive to stripping, as in Python. -/
lemma pySplit_pyStrip (s : String) : pySplit (pyStrip s) = pySplit s := by
  unfold pySplit pyStrip
  rw [wordsL_eq_wordsLW, wordsL_eq_wordsLW]
  show ((wordsLW (stripL s.data)).map String.mk) = _
  rw [wordsLW_stripL]

/-- A query that splits into exactly one word is, once stripped, that
word itself. -/
lemma pyStrip_eq_of_pySplit_singleton {s w : String}
    (h : pySplit s = [w]) : pyStrip s = w := by
  unfold pySplit at h
  rw [wordsL_eq_wordsLW] at h
  have hl : wordsLW s.data = [w.data] := by
    match hw : wordsLW s.data with
    | [] => rw [hw] at h; simp at h
    | [x] =>
      rw [hw] at h
      simp only [List.map_cons, List.map_nil, List.cons.injEq, and_true] at h
      rw [← h]
    | x :: y :: t => rw [hw] at h; simp at h
  have := wordsLW_singleton_strip hl
  unfold pyStrip
  rw [this]

/-- ASCII lower-casing preserves the whitespace test. -/
lemma toLower_isWhitespace {c : Char} (h : c.isWhitespace = true) :
    c.toLower.isWhitespace = true := by
  simp only [Char.isWhitespace] at h
  rcases Bool.or_eq_true_iff.mp h with h1 | h1
  · rcases Bool.or_eq_true_iff.mp h1 with h2 | h2
    · rcases Bool.or_eq_true_iff.mp h2 with h3 | h3
      · rw [of_decide_eq_true h3]; decide
      · rw [of_decide_eq_true h3]; decide
    · rw [of_decide_eq_true h2]; decide
  · rw [of_decide_eq_true h1]; decide

/-! ## Claims about the fuzzy filter -/

/-- C3: for every score function, corpus and non-blank query,
`test_content_filter_enhanced` at threshold 80 returns an
order-preserving subset of the corpus; when the lower-cased query splits
into exactly one word, a record is kept iff that word scores at least the
threshold against the record's searchable text, and when it splits into
several words, a record is kept iff every word independently does. -/
theorem c3_fuzzy_filter_semantics (pr : String → String → Nat) (q : String)
    (posts : List FPost) (hq : q ≠ "") :
    (test_content_filter_enhanced pr q posts 80).Sublist posts ∧
    (∀ w : String, pySplit (pyLower q) = [w] →
      test_content_filter_enhanced pr q posts 80 =
        posts.filter (fun r => decide (80 ≤ pr w (create_searchable_text r))) ∧
      ∀ r : FPost, r ∈ test_content_filter_enhanced pr q posts 80 ↔
        r ∈ posts ∧ 80 ≤ pr w (create_searchable_text r)) ∧
    (2 ≤ (pySplit (pyLower q)).length →
      test_content_filter_enhanced pr q posts 80 =
        posts.filter (fun r => (pySplit (pyLower q)).all
          (fun w => decide (80 ≤ pr w (create_searchable_text r)))) ∧
      ∀ r : FPost, r ∈ test_content_filter_enhanced pr q posts 80 ↔
        r ∈ posts ∧ ∀ w ∈ pySplit (pyLower q),
          80 ≤ pr w (create_searchable_text r)) := by
  have hsp : pySplit (pyStrip (pyLower q)) = pySplit (pyLower q) :=
    pySplit_pyStrip _
  unfold test_content_filter_enhanced
  rw [if_neg hq]
  refine ⟨List.filter_sublist _, ?_, ?_⟩
  · intro w hw
    have hfl : pyStrip (pyLower q) = w :=
      pyStrip_eq_of_pySplit_singleton hw
    have hw2 : pySplit (pyStrip (pyLower q)) = [w] := by rw [hsp, hw]
    have hfilter :
        (posts.filter (fun post =>
            if (pySplit (pyStrip (pyLower q))).length = 1 then
              decide (80 ≤ pr (pyStrip (pyLower q))
                (create_searchable_text post))
            else (pySplit (pyStrip (pyLower q))).all
              (fun w => decide (80 ≤ pr w (create_searchable_text post)))))
          = posts.filter
            (fun r => decide (80 ≤ pr w (create_searchable_text r))) := by
      apply List.filter_congr
      intro r _
      rw [hw2, hfl]
      simp
    refine ⟨hfilter, ?_⟩
    intro r
    rw [hfilter]
    simp [List.mem_filter]
  · intro hlen
    have hne : ¬(pySplit (pyStrip (pyLower q))).length = 1 := by
      rw [hsp]; omega
    have hfilter :
        (posts.filter (fun post =>
            if (pySplit (pyStrip (pyLower q))).length = 1 then
              decide (80 ≤ pr (pyStrip (pyLower q))
                (create_searchable_text post))
            else (pySplit (pyStrip (pyLower q))).all
              (fun w => decide (80 ≤ pr w (create_searchable_text post)))))
          = posts.filter (fun r => (pySplit (pyLower q)).all
              (fun w => decide (80 ≤ pr w (create_searchable_text r)))) := by
      apply List.filter_congr
      intro r _
      rw [if_neg hne, hsp]
    refine ⟨hfilter, ?_⟩
    intro r
    rw [hfilter]
    simp [List.mem_filter, List.all_eq_true]

/-- Witness for C3 at the concrete query `"grav 5"`, a two-record corpus
and a concrete score function. -/
theorem c3_fuzzy_filter_semantics_witness :
    ("grav 5" : String) ≠ "" ∧
    pySplit (pyLower "grav 5") = ["grav", "5"] ∧
    2 ≤ (pySplit (pyLower "grav 5")).length ∧
    test_content_filter_enhanced (fun w s => if w.length ≤ s.length then 90 else 10)
        "grav 5" [⟨"5", some "Graviton 5", some "awsengineer"⟩] 80 =
      [⟨"5", some "Graviton 5", some "awsengineer"⟩].filter
        (fun r => (pySplit (pyLower "grav 5")).all
          (fun w => decide (80 ≤ (fun w s => if w.length ≤ s.length then 90 else 10)
            w (create_searchable_text r)))) :=
  ⟨by decide, by decide, by decide,
    ((c3_fuzzy_filter_semantics
        (fun w s => if w.length ≤ s.length then 90 else 10) "grav 5"
        [⟨"5", some "Graviton 5", some "awsengineer"⟩]
        (by decide)).2.2 (by decide)).1⟩

/-- C9: for every score function, corpus, threshold and blank query
(empty or whitespace-only), the filter returns the corpus unchanged. -/
theorem c9_blank_query_identity (pr : String → String → Nat)
    (posts : List FPost) (threshold : Nat) (q : String)
    (hq : ∀ c ∈ q.data, c.isWhitespace = true) :
    test_content_filter_enhanced pr q posts threshold = posts := by
  by_cases h0 : q = ""
  · subst h0
    rw [test_content_filter_enhanced, if_pos rfl]
  · unfold test_content_filter_enhanced
    rw [if_neg h0]
    dsimp only
    have hws : ∀ c ∈ (pyLower q).data, c.isWhitespace = true := by
      intro c hc
      unfold pyLower at hc
      obtain ⟨a, ha, rfl⟩ := List.mem_map.mp hc
      exact toLower_isWhitespace (hq a ha)
    have hsplit : pySplit (pyStrip (pyLower q)) = [] := by
      rw [pySplit_pyStrip]
      unfold pySplit
      rw [wordsL_eq_wordsLW, wordsLW_eq_nil_iff.mpr hws]
      rfl
    rw [hsplit]
    apply List.filter_eq_self.mpr
    intro a _
    simp

/-- Witness for C9 at the whitespace query `"   "` and the empty query. -/
theorem c9_blank_query_identity_witness :
    (∀ c ∈ ("   " : String).data, c.isWhitespace = true) ∧
    test_content_filter_enhanced (fun _ _ => 0) "   "
        [⟨"1", some "Python", some "dev"⟩, ⟨"2", some "JS", none⟩] 80 =
      [⟨"1", some "Python", some "dev"⟩, ⟨"2", some "JS", none⟩] ∧
    test_content_filter_enhanced (fun _ _ => 0) ""
        [⟨"1", some "Python", some "dev"⟩, ⟨"2", some "JS", none⟩] 80 =
      [⟨"1", some "Python", some "dev"⟩, ⟨"2", some "JS", none⟩] :=
  ⟨by decide,
    c9_blank_query_identity (fun _ _ => 0) _ 80 "   " (by decide),
    c9_blank_query_identity (fun _ _ => 0) _ 80 "" (by decide)⟩

/-! ## Lemmas about the ingestion step -/

lemma urnKey_some_iff {doc : PostDoc} {u : String} :
    urnKey doc = some u ↔ get_post_urn doc = some u ∧ u ≠ "" := by
  unfold urnKey
  match h : get_post_urn doc with
  | none => simp
  | some s =>
    dsimp only
    by_cases hs : s = ""
    · subst hs
      simp only [if_pos rfl]
      constructor
      · intro h2; exact absurd h2 (by simp)
      · rintro ⟨h2, h3⟩
        exact absurd (Option.some.inj h2).symm h3
    · rw [if_neg hs]
      constructor
      · intro h2
        have := Option.some.inj h2
        subst this
        exact ⟨rfl, hs⟩
      · rintro ⟨h2, h3⟩
        rw [Option.some.inj h2]

lemma urnKey_none_cases {doc : PostDoc} (h : urnKey doc = none) :
    get_post_urn doc = none ∨ get_post_urn doc = some "" := by
  unfold urnKey at h
  match h2 : get_post_urn doc with
  | none => exact Or.inl rfl
  | some s =>
    rw [h2] at h
    dsimp only at h
    by_cases hs : s = ""
    · subst hs; exact Or.inr rfl
    · rw [if_neg hs] at h; simp at h

lemma attachDownload_ok {gen : Nat → String} {rid fpath now pid : String}
    {doc : PostDoc} {db db2 : DB} {st : Stats} {c : Nat}
    (h : insertDownload db (mkDownloadRow (gen c) pid rid doc fpath now) = some db2) :
    attachDownload gen rid fpath now pid doc db st c = (db2, st, c + 1) := by
  unfold attachDownload
  dsimp only
  rw [h]

lemma attachDownload_fail {gen : Nat → String} {rid fpath now pid : String}
    {doc : PostDoc} {db : DB} {st : Stats} {c : Nat}
    (h : insertDownload db (mkDownloadRow (gen c) pid rid doc fpath now) = none) :
    attachDownload gen rid fpath now pid doc db st c =
      (db, { st with errors := st.errors + 1 }, c + 1) := by
  unfold attachDownload
  dsimp only
  rw [h]

lemma insertDownload_succeeds {db : DB} {d : DownloadRow}
    (h1 : downloadIdTaken db d.download_id = false)
    (h2 : db.posts.any (fun p => p.post_id == d.post_id) = true)
    (h3 : db.runs.any (fun r => r.run_id == d.run_id) = true) :
    insertDownload db d = some { db with downloads := db.downloads ++ [d] } := by
  unfold insertDownload
  rw [h1, h2, h3]
  rfl

lemma insertPost_succeeds {db : DB} {p : PostRow}
    (h1 : postIdTaken db p.post_id = false)
    (h2 : urnTaken db p.urn = false) :
    insertPost db p = some { db with posts := db.posts ++ [p] } := by
  unfold insertPost
  rw [h1, h2]
  rfl

lemma insertPost_posts {db db1 : DB} {p : PostRow}
    (h : insertPost db p = some db1) :
    db1 = { db with posts := db.posts ++ [p] } ∧
      postIdTaken db p.post_id = false ∧ urnTaken db p.urn = false := by
  unfold insertPost at h
  by_cases hc : postIdTaken db p.post_id || urnTaken db p.urn
  · rw [if_pos hc] at h; simp at h
  · rw [if_neg hc] at h
    simp only [Bool.or_eq_true, not_or, Bool.not_eq_true] at hc
    exact ⟨(Option.some.inj h).symm, hc.1, hc.2⟩

lemma insertDownload_downloads {db db1 : DB} {d : DownloadRow}
    (h : insertDownload db d = some db1) :
    db1 = { db with downloads := db.downloads ++ [d] } := by
  unfold insertDownload at h
  split at h
  · simp at h
  · exact (Option.some.inj h).symm

lemma processDoc_unresolvable {gen : Nat → String} {rid fpath now : String}
    {db : DB} {st : Stats} {c : Nat} {doc : PostDoc}
    (hu : urnKey doc = none) :
    processDoc gen rid fpath now (db, st, c) doc =
      (db, ⟨st.processed + 1, st.new, st.duplicates, st.errors + 1⟩, c) := by
  unfold processDoc
  rcases urnKey_none_cases hu with h | h
  · rw [h]
  · rw [h]
    simp

lemma processDoc_dup {gen : Nat → String} {rid fpath now : String}
    {db : DB} {st : Stats} {c : Nat} {doc : PostDoc} {u : String} {p : PostRow}
    (hu : urnKey doc = some u)
    (hp : db.posts.find? (fun q => q.urn == u) = some p) :
    processDoc gen rid fpath now (db, st, c) doc =
      attachDownload gen rid fpath now p.post_id doc db
        ⟨st.processed + 1, st.new, st.duplicates + 1, st.errors⟩ c := by
  obtain ⟨hg, hne⟩ := urnKey_some_iff.mp hu
  unfold processDoc
  rw [hg]
  simp only [if_neg hne]
  rw [hp]

lemma processDoc_new {gen : Nat → String} {rid fpath now : String}
    {db : DB} {st : Stats} {c : Nat} {doc : PostDoc} {u : String}
    (hu : urnKey doc = some u)
    (hp : db.posts.find? (fun q => q.urn == u) = none) :
    processDoc gen rid fpath now (db, st, c) doc =
      match insertPost db (mkPostRow (gen c) u doc now) with
      | none => (db, ⟨st.processed + 1, st.new, st.duplicates, st.errors + 1⟩, c + 1)
      | some db1 =>
          attachDownload gen rid fpath now (gen c) doc db1
            ⟨st.processed + 1, st.new + 1, st.duplicates, st.errors⟩ (c + 1) := by
  obtain ⟨hg, hne⟩ := urnKey_some_iff.mp hu
  unfold processDoc
  rw [hg]
  simp only [if_neg hne]
  rw [hp]

lemma find?_none_urnTaken {db : DB} {u : String}
    (h : db.posts.find? (fun q => q.urn == u) = none) :
    urnTaken db u = false := by
  unfold urnTaken
  rw [List.any_eq_false]
  intro p hp
  exact List.find?_eq_none.mp h p hp

/-- Complete case analysis of one document step: the counter advances by
at most two; the runs table is untouched; posts are unchanged or gain
exactly the one new row (only when its URN was absent); downloads are
unchanged or gain exactly one row carrying a freshly drawn identifier. -/
lemma processDoc_cases (gen : Nat → String) (rid fpath now : String)
    (db : DB) (st : Stats) (c : Nat) (doc : PostDoc) :
    ∃ db' st' c', processDoc gen rid fpath now (db, st, c) doc = (db', st', c') ∧
      c ≤ c' ∧ c' ≤ c + 2 ∧ db'.runs = db.runs ∧
      (db'.posts = db.posts ∨
        (c < c' ∧ ∃ u, urnKey doc = some u ∧ urnTaken db u = false ∧
          db'.posts = db.posts ++ [mkPostRow (gen c) u doc now])) ∧
      (db'.downloads = db.downloads ∨
        ∃ d k, c ≤ k ∧ k < c' ∧ d.download_id = gen k ∧
          db'.downloads = db.downloads ++ [d]) := by
  match hu : urnKey doc with
  | none =>
    refine ⟨db, _, c, processDoc_unresolvable hu, le_rfl, by omega, rfl,
      Or.inl rfl, Or.inl rfl⟩
  | some u =>
    match hf : db.posts.find? (fun q => q.urn == u) with
    | some p =>
      rw [processDoc_dup hu hf]
      match hins : insertDownload db
          (mkDownloadRow (gen c) p.post_id rid doc fpath now) with
      | some db2 =>
        rw [attachDownload_ok hins]
        have hd := insertDownload_downloads hins
        refine ⟨db2, _, c + 1, rfl, by omega, by omega, by rw [hd], ?_, ?_⟩
        · exact Or.inl (by rw [hd])
        · exact Or.inr ⟨mkDownloadRow (gen c) p.post_id rid doc fpath now, c,
            le_rfl, by omega, rfl, by rw [hd]⟩
      | none =>
        rw [attachDownload_fail hins]
        exact ⟨db, _, c + 1, rfl, by omega, by omega, rfl,
          Or.inl rfl, Or.inl rfl⟩
    | none =>
      rw [processDoc_new hu hf]
      have hut : urnTaken db u = false := find?_none_urnTaken hf
      match hip : insertPost db (mkPostRow (gen c) u doc now) with
      | none =>
        dsimp only
        exact ⟨db, _, c + 1, rfl, by omega, by omega, rfl,
          Or.inl rfl, Or.inl rfl⟩
      | some db1 =>
        dsimp only
        obtain ⟨hdb1, -, -⟩ := insertPost_posts hip
        match hins : insertDownload db1
            (mkDownloadRow (gen (c + 1)) (gen c) rid doc fpath now) with
        | some db2 =>
          rw [attachDownload_ok hins]
          have hd := insertDownload_downloads hins
          refine ⟨db2, _, c + 2, rfl, by omega, by omega, by rw [hd, hdb1], ?_, ?_⟩
          · refine Or.inr ⟨by omega, u, rfl, hut, ?_⟩
            rw [hd, hdb1]
          · refine Or.inr ⟨mkDownloadRow (gen (c + 1)) (gen c) rid doc fpath now,
              c + 1, by omega, by omega, rfl, ?_⟩
            rw [hd, hdb1]
        | none =>
          rw [attachDownload_fail hins]
          refine ⟨db1, _, c + 2, rfl, by omega, by omega, by rw [hdb1], ?_, ?_⟩
          · refine Or.inr ⟨by omega, u, rfl, hut, by rw [hdb1]⟩
          · exact Or.inl (by rw [hdb1])

lemma processDoc_pairwise {gen : Nat → String} {rid fpath now : String}
    {db : DB} {st : Stats} {c : Nat} {doc : PostDoc}
    (h : db.posts.Pairwise
      (fun p q => (p.platform, p.urn) ≠ (q.platform, q.urn))) :
    (processDoc gen rid fpath now (db, st, c) doc).1.posts.Pairwise
      (fun p q => (p.platform, p.urn) ≠ (q.platform, q.urn)) := by
  obtain ⟨db', st', c', heq, -, -, -, hposts, -⟩ :=
    processDoc_cases gen rid fpath now db st c doc
  rw [heq]
  rcases hposts with hp | ⟨-, u, -, hut, hp⟩
  · simpa [hp] using h
  · simp only [hp]
    rw [List.pairwise_append]
    refine ⟨h, by simp, ?_⟩
    intro a ha b hb
    simp only [List.mem_singleton] at hb
    subst hb
    intro hcontra
    have h2 : a.urn = u := congrArg Prod.snd hcontra
    unfold urnTaken at hut
    rw [List.any_eq_false] at hut
    exact hut a ha (by simp [h2])

lemma foldDocs_pairwise (gen : Nat → String) (rid fpath now : String)
    (docs : List PostDoc) : ∀ (db : DB) (st : Stats) (c : Nat),
    db.posts.Pairwise (fun p q => (p.platform, p.urn) ≠ (q.platform, q.urn)) →
    (docs.foldl (processDoc gen rid fpath now) (db, st, c)).1.posts.Pairwise
      (fun p q => (p.platform, p.urn) ≠ (q.platform, q.urn)) := by
  induction docs with
  | nil => intro db st c h; simpa using h
  | cons d ds ih =>
    intro db st c h
    rw [List.foldl_cons]
    obtain ⟨db', st', c', heq, -⟩ := processDoc_cases gen rid fpath now db st c d
    have hpw := @processDoc_pairwise gen rid fpath now db st c d h
    rw [heq] at hpw ⊢
    exact ih db' st' c' hpw

lemma processFile_pairwise {gen : Nat → String} {rid now : String}
    {db : DB} {st : Stats} {c : Nat} {f : JsonFile}
    (h : db.posts.Pairwise
      (fun p q => (p.platform, p.urn) ≠ (q.platform, q.urn))) :
    (processFile gen rid now (db, st, c) f).1.posts.Pairwise
      (fun p q => (p.platform, p.urn) ≠ (q.platform, q.urn)) := by
  unfold processFile
  match f.content with
  | .invalid => exact h
  | .other => exact h
  | .arr ds => exact foldDocs_pairwise gen rid f.path now ds db st c h
  | .obj d => exact foldDocs_pairwise gen rid f.path now [d] db st c h

lemma foldFiles_pairwise (gen : Nat → String) (rid now : String)
    (files : List JsonFile) : ∀ (db : DB) (st : Stats) (c : Nat),
    db.posts.Pairwise (fun p q => (p.platform, p.urn) ≠ (q.platform, q.urn)) →
    (files.foldl (processFile gen rid now) (db, st, c)).1.posts.Pairwise
      (fun p q => (p.platform, p.urn) ≠ (q.platform, q.urn)) := by
  induction files with
  | nil => intro db st c h; simpa using h
  | cons f fs ih =>
    intro db st c h
    rw [List.foldl_cons]
    have hpw := @processFile_pairwise gen rid now db st c f h
    rcases heq : processFile gen rid now (db, st, c) f with ⟨db', st', c'⟩
    rw [heq] at hpw
    exact ih db' st' c' hpw

lemma Evolves_refl (gen : Nat → String) (db0 : DB) (c0 : Nat) :
    Evolves gen db0 c0 db0 c0 :=
  ⟨le_rfl, fun p hp => Or.inl hp, fun d hd => Or.inl hd, rfl⟩

lemma processDoc_evolves {gen : Nat → String} {rid fpath now : String}
    {db0 db : DB} {c0 c : Nat} {st : Stats} {doc : PostDoc}
    (hev : Evolves gen db0 c0 db c) :
    ∀ db' st' c', processDoc gen rid fpath now (db, st, c) doc = (db', st', c') →
      Evolves gen db0 c0 db' c' := by
  intro db' st' c' heq
  obtain ⟨dbx, stx, cx, heqx, hc1, hc2, hruns, hposts, hdl⟩ :=
    processDoc_cases gen rid fpath now db st c doc
  rw [heq] at heqx
  obtain ⟨rfl, rfl, rfl⟩ :
      db' = dbx ∧ st' = stx ∧ c' = cx := by
    have h1 := congrArg (fun t => t.1) heqx
    have h2 := congrArg (fun t => t.2.1) heqx
    have h3 := congrArg (fun t => t.2.2) heqx
    exact ⟨h1, h2, h3⟩
  obtain ⟨hle, hp0, hd0, hr0⟩ := hev
  refine ⟨le_trans hle hc1, ?_, ?_, by rw [hruns, hr0]⟩
  · intro p hp
    rcases hposts with h | ⟨hcc, u, -, -, h⟩
    · rw [h] at hp
      rcases hp0 p hp with h2 | ⟨k, hk1, hk2, hk3⟩
      · exact Or.inl h2
      · exact Or.inr ⟨k, hk1, by omega, hk3⟩
    · rw [h] at hp
      rcases List.mem_append.mp hp with hp2 | hp2
      · rcases hp0 p hp2 with h2 | ⟨k, hk1, hk2, hk3⟩
        · exact Or.inl h2
        · exact Or.inr ⟨k, hk1, by omega, hk3⟩
      · simp only [List.mem_singleton] at hp2
        subst hp2
        exact Or.inr ⟨c, hle, by omega, rfl⟩
  · intro d hd
    rcases hdl with h | ⟨dd, k, hk1, hk2, hk3, h⟩
    · rw [h] at hd
      rcases hd0 d hd with h2 | ⟨k, hk1, hk2, hk3⟩
      · exact Or.inl h2
      · exact Or.inr ⟨k, hk1, by omega, hk3⟩
    · rw [h] at hd
      rcases List.mem_append.mp hd with hd2 | hd2
      · rcases hd0 d hd2 with h2 | ⟨j, hj1, hj2, hj3⟩
        · exact Or.inl h2
        · exact Or.inr ⟨j, hj1, by omega, hj3⟩
      · simp only [List.mem_singleton] at hd2
        subst hd2
        exact Or.inr ⟨k, le_trans hle hk1, hk2, hk3⟩

lemma fresh_postId {gen : Nat → String} {db0 db : DB} {c0 c n : Nat}
    (hf : FreshGen gen db0) (hev : Evolves gen db0 c0 db c) (hn : c ≤ n) :
    postIdTaken db (gen n) = false := by
  unfold postIdTaken
  rw [List.any_eq_false]
  intro p hp
  simp only [beq_iff_eq]
  rcases hev.2.1 p hp with h | ⟨k, -, hk2, hk3⟩
  · exact (hf.2 n).1 p h
  · rw [hk3]
    exact hf.1 k n (by omega)

lemma fresh_downloadId {gen : Nat → String} {db0 db : DB} {c0 c n : Nat}
    (hf : FreshGen gen db0) (hev : Evolves gen db0 c0 db c) (hn : c ≤ n) :
    downloadIdTaken db (gen n) = false := by
  unfold downloadIdTaken
  rw [List.any_eq_false]
  intro d hd
  simp only [beq_iff_eq]
  rcases hev.2.2.1 d hd with h | ⟨k, -, hk2, hk3⟩
  · exact (hf.2 n).2.1 d h
  · rw [hk3]
    exact hf.1 k n (by omega)

lemma urnTaken_mono_append {db : DB} {l : List PostRow} {u : String} :
    urnTaken db u = true →
      urnTaken { db with posts := db.posts ++ l } u = true := by
  unfold urnTaken
  intro h
  simp only [List.any_append]
  rw [h]
  rfl

lemma urnTaken_posts_congr {db db' : DB} {u : String}
    (h : db'.posts = db.posts) : urnTaken db' u = urnTaken db u := by
  unfold urnTaken
  rw [h]

lemma urnTaken_of_mem {db : DB} {u : String} {p : PostRow}
    (hp : p ∈ db.posts) (hu : p.urn = u) : urnTaken db u = true := by
  unfold urnTaken
  rw [List.any_eq_true]
  exact ⟨p, hp, by simp [hu]⟩

/-- One document step under a collision-free generator: the store still
evolves from the base, stored URNs are preserved, and the document's own
resolved URN (if any) is stored afterwards. -/
lemma processDoc_cover {gen : Nat → String} {rid fpath now : String}
    {db0 db : DB} {c0 c : Nat} {st : Stats} {doc : PostDoc}
    (hf : FreshGen gen db0) (hev : Evolves gen db0 c0 db c) :
    ∀ db' st' c', processDoc gen rid fpath now (db, st, c) doc = (db', st', c') →
      Evolves gen db0 c0 db' c' ∧
      (∀ u, urnTaken db u = true → urnTaken db' u = true) ∧
      (∀ u, urnKey doc = some u → urnTaken db' u = true) := by
  intro db' st' c' heq
  refine ⟨processDoc_evolves hev db' st' c' heq, ?_, ?_⟩
  · obtain ⟨dbx, stx, cx, heqx, -, -, -, hposts, -⟩ :=
      processDoc_cases gen rid fpath now db st c doc
    rw [heq] at heqx
    have hdbx : db' = dbx := congrArg (fun t => t.1) heqx
    subst hdbx
    intro u hu
    rcases hposts with h | ⟨-, v, -, -, h⟩
    · rwa [urnTaken_posts_congr h]
    · unfold urnTaken at hu ⊢
      rw [h, List.any_append, hu]
      rfl
  · intro u hu
    match hfind : db.posts.find? (fun q => q.urn == u) with
    | some p =>
      have hput : urnTaken db u = true := by
        have hpm := List.mem_of_find?_eq_some hfind
        have hpu := List.find?_some hfind
        exact urnTaken_of_mem hpm (by simpa using hpu)
      obtain ⟨dbx, stx, cx, heqx, -, -, -, hposts, -⟩ :=
        processDoc_cases gen rid fpath now db st c doc
      rw [heq] at heqx
      have hdbx : db' = dbx := congrArg (fun t => t.1) heqx
      subst hdbx
      rcases hposts with h | ⟨-, v, -, -, h⟩
      · rwa [urnTaken_posts_congr h]
      · unfold urnTaken at hput ⊢
        rw [h, List.any_append, hput]
        rfl
    | none =>
      rw [processDoc_new hu hfind] at heq
      have h1 : postIdTaken db (mkPostRow (gen c) u doc now).post_id = false :=
        fresh_postId hf hev le_rfl
      have h2 : urnTaken db (mkPostRow (gen c) u doc now).urn = false :=
        find?_none_urnTaken hfind
      rw [insertPost_succeeds h1 h2] at heq
      dsimp only at heq
      have hposts' : db'.posts =
          db.posts ++ [mkPostRow (gen c) u doc now] := by
        match hins : insertDownload
            { db with posts := db.posts ++ [mkPostRow (gen c) u doc now] }
            (mkDownloadRow (gen (c + 1)) (gen c) rid doc fpath now) with
        | some db2 =>
          rw [attachDownload_ok hins] at heq
          have hd := insertDownload_downloads hins
          have hx : db' = db2 := (congrArg (fun t => t.1) heq).symm
          rw [hx, hd]
        | none =>
          rw [attachDownload_fail hins] at heq
          have hx : db' =
              { db with posts := db.posts ++ [mkPostRow (gen c) u doc now] } :=
            (congrArg (fun t => t.1) heq).symm
          rw [hx]
      apply urnTaken_of_mem (p := mkPostRow (gen c) u doc now)
      · rw [hposts']
        simp
      · rfl

lemma foldDocs_cover {gen : Nat → String} {rid fpath now : String}
    {db0 : DB} {c0 : Nat} (hf : FreshGen gen db0) (docs : List PostDoc) :
    ∀ (db : DB) (st : Stats) (c : Nat), Evolves gen db0 c0 db c →
    ∀ db' st' c',
      docs.foldl (processDoc gen rid fpath now) (db, st, c) = (db', st', c') →
      Evolves gen db0 c0 db' c' ∧
      (∀ u, urnTaken db u = true → urnTaken db' u = true) ∧
      (∀ doc ∈ docs, ∀ u, urnKey doc = some u → urnTaken db' u = true) := by
  induction docs with
  | nil =>
    intro db st c hev db' st' c' heq
    simp only [List.foldl_nil, Prod.mk.injEq] at heq
    obtain ⟨rfl, rfl, rfl⟩ := heq
    exact ⟨hev, fun u h => h, by simp⟩
  | cons d ds ih =>
    intro db st c hev db' st' c' heq
    rw [List.foldl_cons] at heq
    rcases heq1 : processDoc gen rid fpath now (db, st, c) d with ⟨db1, st1, c1⟩
    rw [heq1] at heq
    obtain ⟨hev1, hmono1, hest1⟩ := processDoc_cover hf hev db1 st1 c1 heq1
    obtain ⟨hev', hmono2, hest2⟩ := ih db1 st1 c1 hev1 db' st' c' heq
    refine ⟨hev', fun u h => hmono2 u (hmono1 u h), ?_⟩
    intro doc hdoc u hu
    rcases List.mem_cons.mp hdoc with h | h
    · subst h
      exact hmono2 u (hest1 u hu)
    · exact hest2 doc h u hu

lemma processFile_cover {gen : Nat → String} {rid now : String}
    {db0 : DB} {c0 : Nat} (hf : FreshGen gen db0) {f : JsonFile}
    {db : DB} {st : Stats} {c : Nat} (hev : Evolves gen db0 c0 db c) :
    ∀ db' st' c', processFile gen rid now (db, st, c) f = (db', st', c') →
      Evolves gen db0 c0 db' c' ∧
      (∀ u, urnTaken db u = true → urnTaken db' u = true) ∧
      (∀ doc ∈ fileDocs f.content, ∀ u,
        urnKey doc = some u → urnTaken db' u = true) := by
  intro db' st' c' heq
  unfold processFile at heq
  match hc : f.content with
  | .invalid =>
    rw [hc] at heq
    dsimp only at heq
    simp only [Prod.mk.injEq] at heq
    obtain ⟨rfl, rfl, rfl⟩ := heq
    exact ⟨hev, fun u h => h, by simp [fileDocs]⟩
  | .other =>
    rw [hc] at heq
    simp only [Prod.mk.injEq] at heq
    obtain ⟨rfl, rfl, rfl⟩ := heq
    exact ⟨hev, fun u h => h, by simp [fileDocs]⟩
  | .arr ds =>
    rw [hc] at heq
    exact foldDocs_cover hf ds db st c hev db' st' c' heq
  | .obj d =>
    rw [hc] at heq
    exact foldDocs_cover hf [d] db st c hev db' st' c' heq

lemma foldFiles_cover {gen : Nat → String} {rid now : String}
    {db0 : DB} {c0 : Nat} (hf : FreshGen gen db0) (files : List JsonFile) :
    ∀ (db : DB) (st : Stats) (c : Nat), Evolves gen db0 c0 db c →
    ∀ db' st' c',
      files.foldl (processFile gen rid now) (db, st, c) = (db', st', c') →
      Evolves gen db0 c0 db' c' ∧
      (∀ u, urnTaken db u = true → urnTaken db' u = true) ∧
      (∀ f ∈ files, ∀ doc ∈ fileDocs f.content, ∀ u,
        urnKey doc = some u → urnTaken db' u = true) := by
  induction files with
  | nil =>
    intro db st c hev db' st' c' heq
    simp only [List.foldl_nil, Prod.mk.injEq] at heq
    obtain ⟨rfl, rfl, rfl⟩ := heq
    exact ⟨hev, fun u h => h, by simp⟩
  | cons f fs ih =>
    intro db st c hev db' st' c' heq
    rw [List.foldl_cons] at heq
    rcases heq1 : processFile gen rid now (db, st, c) f with ⟨db1, st1, c1⟩
    rw [heq1] at heq
    obtain ⟨hev1, hmono1, hest1⟩ := processFile_cover hf hev db1 st1 c1 heq1
    obtain ⟨hev', hmono2, hest2⟩ := ih db1 st1 c1 hev1 db' st' c' heq
    refine ⟨hev', fun u h => hmono2 u (hmono1 u h), ?_⟩
    intro g hg doc hdoc u hu
    rcases List.mem_cons.mp hg with h | h
    · subst h
      exact hmono2 u (hest1 doc hdoc u hu)
    · exact hest2 g h doc hdoc u hu

lemma countResolvable_cons_some {d : PostDoc} {docs : List PostDoc}
    (h : (urnKey d).isSome) :
    countResolvable (d :: docs) = countResolvable docs + 1 := by
  unfold countResolvable
  rw [List.filter_cons, if_pos (by simpa using h)]
  simp

lemma countResolvable_cons_none {d : PostDoc} {docs : List PostDoc}
    (h : urnKey d = none) :
    countResolvable (d :: docs) = countResolvable docs := by
  unfold countResolvable
  rw [List.filter_cons, if_neg (by simp [h])]

lemma countResolvable_append (l1 l2 : List PostDoc) :
    countResolvable (l1 ++ l2) = countResolvable l1 + countResolvable l2 := by
  unfold countResolvable
  rw [List.filter_append, List.length_append]

lemma allDocs_cons (f : JsonFile) (fs : List JsonFile) :
    allDocs (f :: fs) = fileDocs f.content ++ allDocs fs := by
  unfold allDocs
  rw [List.map_cons, List.flatten_cons]

/-- One document step in a store that already holds the document's URN:
the duplicate branch runs and the observation insert succeeds. -/
lemma processDoc_dup_exact {gen : Nat → String} {rid fpath now : String}
    {db0 db : DB} {c0 c : Nat} {st : Stats} {doc : PostDoc} {u : String}
    (hf : FreshGen gen db0) (hev : Evolves gen db0 c0 db c)
    (hrid : runIdTaken db0 rid = true)
    (hu : urnKey doc = some u) (hut : urnTaken db u = true) :
    ∃ p ∈ db.posts, db.posts.find? (fun q => q.urn == u) = some p ∧
      processDoc gen rid fpath now (db, st, c) doc =
        ({ db with downloads := db.downloads ++
            [mkDownloadRow (gen c) p.post_id rid doc fpath now] },
          ⟨st.processed + 1, st.new, st.duplicates + 1, st.errors⟩, c + 1) := by
  have hsome : (db.posts.find? (fun q => q.urn == u)).isSome := by
    rw [List.find?_isSome]
    unfold urnTaken at hut
    rw [List.any_eq_true] at hut
    exact hut
  obtain ⟨p, hfind⟩ := Option.isSome_iff_exists.mp hsome
  refine ⟨p, List.mem_of_find?_eq_some hfind, hfind, ?_⟩
  rw [processDoc_dup hu hfind]
  have h1 : downloadIdTaken db
      (mkDownloadRow (gen c) p.post_id rid doc fpath now).download_id = false :=
    fresh_downloadId hf hev le_rfl
  have h2 : db.posts.any (fun q => q.post_id ==
      (mkDownloadRow (gen c) p.post_id rid doc fpath now).post_id) = true := by
    rw [List.any_eq_true]
    exact ⟨p, List.mem_of_find?_eq_some hfind, by simp [mkDownloadRow]⟩
  have h3 : db.runs.any (fun r => r.run_id ==
      (mkDownloadRow (gen c) p.post_id rid doc fpath now).run_id) = true := by
    rw [hev.2.2.2]
    unfold runIdTaken at hrid
    exact hrid
  rw [attachDownload_ok (insertDownload_succeeds h1 h2 h3)]

/-- Folding the document loop over a store that already holds every
resolvable URN of `docs`: the posts table is untouched, no `new` is
counted, `duplicates` rises by the resolvable count, and exactly one
observation is appended per resolvable document. -/
lemma foldDocs_dup {gen : Nat → String} {rid fpath now : String}
    {db0 : DB} {c0 : Nat} (hf : FreshGen gen db0)
    (hrid : runIdTaken db0 rid = true) (docs : List PostDoc) :
    ∀ (db : DB) (st : Stats) (c : Nat), Evolves gen db0 c0 db c →
    (∀ doc ∈ docs, ∀ u, urnKey doc = some u → urnTaken db u = true) →
    ∀ db' st' c',
      docs.foldl (processDoc gen rid fpath now) (db, st, c) = (db', st', c') →
      db'.posts = db.posts ∧ db'.runs = db.runs ∧
      (∃ ext, db'.downloads = db.downloads ++ ext ∧
        ext.length = countResolvable docs) ∧
      st'.new = st.new ∧ st'.duplicates = st.duplicates + countResolvable docs ∧
      Evolves gen db0 c0 db' c' := by
  induction docs with
  | nil =>
    intro db st c hev hcov db' st' c' heq
    simp only [List.foldl_nil, Prod.mk.injEq] at heq
    obtain ⟨rfl, rfl, rfl⟩ := heq
    exact ⟨rfl, rfl, ⟨[], by simp, by simp [countResolvable]⟩, rfl,
      by simp [countResolvable], hev⟩
  | cons d ds ih =>
    intro db st c hev hcov db' st' c' heq
    rw [List.foldl_cons] at heq
    match hu : urnKey d with
    | none =>
      rw [processDoc_unresolvable hu] at heq
      obtain ⟨hposts, hruns, ⟨ext, hext, hlen⟩, hnew, hdup, hev'⟩ :=
        ih db _ c hev (fun doc hdoc => hcov doc (by simp [hdoc])) db' st' c' heq
      refine ⟨hposts, hruns, ⟨ext, hext, ?_⟩, hnew, ?_, hev'⟩
      · rw [hlen, countResolvable_cons_none hu]
      · rw [hdup, countResolvable_cons_none hu]
    | some u =>
      have hut : urnTaken db u = true := hcov d (by simp) u hu
      obtain ⟨p, hpm, hfind, hstep⟩ :=
        @processDoc_dup_exact gen rid fpath now db0 db c0 c st d u
          hf hev hrid hu hut
      rw [hstep] at heq
      have hev1 := processDoc_evolves hev _ _ _ hstep
      obtain ⟨hposts, hruns, ⟨ext, hext, hlen⟩, hnew, hdup, hev'⟩ :=
        ih _ _ (c + 1) hev1
          (by
            intro doc2 hdoc2 u2 hu2
            have := hcov doc2 (by simp [hdoc2]) u2 hu2
            rwa [urnTaken_posts_congr rfl])
          db' st' c' heq
      refine ⟨by rw [hposts], by rw [hruns], ?_, hnew, ?_, hev'⟩
      · refine ⟨mkDownloadRow (gen c) p.post_id rid d fpath now :: ext, ?_, ?_⟩
        · rw [hext]
          simp
        · simp only [List.length_cons]
          rw [hlen, countResolvable_cons_some (by simp [hu])]
      · rw [hdup, countResolvable_cons_some (by simp [hu])]
        dsimp only
        omega

lemma processFile_dup {gen : Nat → String} {rid now : String}
    {db0 : DB} {c0 : Nat} (hf : FreshGen gen db0)
    (hrid : runIdTaken db0 rid = true) {f : JsonFile}
    {db : DB} {st : Stats} {c : Nat} (hev : Evolves gen db0 c0 db c)
    (hcov : ∀ doc ∈ fileDocs f.content, ∀ u,
      urnKey doc = some u → urnTaken db u = true) :
    ∀ db' st' c', processFile gen rid now (db, st, c) f = (db', st', c') →
      db'.posts = db.posts ∧ db'.runs = db.runs ∧
      (∃ ext, db'.downloads = db.downloads ++ ext ∧
        ext.length = countResolvable (fileDocs f.content)) ∧
      st'.new = st.new ∧
      st'.duplicates = st.duplicates + countResolvable (fileDocs f.content) ∧
      Evolves gen db0 c0 db' c' := by
  intro db' st' c' heq
  unfold processFile at heq
  match hc : f.content with
  | .invalid =>
    rw [hc] at heq
    dsimp only at heq
    simp only [Prod.mk.injEq] at heq
    obtain ⟨rfl, rfl, rfl⟩ := heq
    exact ⟨rfl, rfl, ⟨[], by simp, by simp [fileDocs, countResolvable]⟩,
      rfl, by simp [fileDocs, countResolvable], hev⟩
  | .other =>
    rw [hc] at heq
    simp only [Prod.mk.injEq] at heq
    obtain ⟨rfl, rfl, rfl⟩ := heq
    exact ⟨rfl, rfl, ⟨[], by simp, by simp [fileDocs, countResolvable]⟩,
      rfl, by simp [fileDocs, countResolvable], hev⟩
  | .arr ds =>
    rw [hc] at heq
    have hcov2 := hcov
    rw [hc] at hcov2
    exact foldDocs_dup hf hrid ds db st c hev hcov2 db' st' c' heq
  | .obj d =>
    rw [hc] at heq
    have hcov2 := hcov
    rw [hc] at hcov2
    exact foldDocs_dup hf hrid [d] db st c hev hcov2 db' st' c' heq

lemma foldFiles_dup {gen : Nat → String} {rid now : String}
    {db0 : DB} {c0 : Nat} (hf : FreshGen gen db0)
    (hrid : runIdTaken db0 rid = true) (files : List JsonFile) :
    ∀ (db : DB) (st : Stats) (c : Nat), Evolves gen db0 c0 db c →
    (∀ f ∈ files, ∀ doc ∈ fileDocs f.content, ∀ u,
      urnKey doc = some u → urnTaken db u = true) →
    ∀ db' st' c',
      files.foldl (processFile gen rid now) (db, st, c) = (db', st', c') →
      db'.posts = db.posts ∧ db'.runs = db.runs ∧
      (∃ ext, db'.downloads = db.downloads ++ ext ∧
        ext.length = countResolvable (allDocs files)) ∧
      st'.new = st.new ∧
      st'.duplicates = st.duplicates + countResolvable (allDocs files) ∧
      Evolves gen db0 c0 db' c' := by
  induction files with
  | nil =>
    intro db st c hev hcov db' st' c' heq
    simp only [List.foldl_nil, Prod.mk.injEq] at heq
    obtain ⟨rfl, rfl, rfl⟩ := heq
    exact ⟨rfl, rfl, ⟨[], by simp, by simp [allDocs, countResolvable]⟩,
      rfl, by simp [allDocs, countResolvable], hev⟩
  | cons f fs ih =>
    intro db st c hev hcov db' st' c' heq
    rw [List.foldl_cons] at heq
    rcases heq1 : processFile gen rid now (db, st, c) f with ⟨db1, st1, c1⟩
    rw [heq1] at heq
    obtain ⟨hposts1, hruns1, ⟨ext1, hext1, hlen1⟩, hnew1, hdup1, hev1⟩ :=
      processFile_dup hf hrid hev (hcov f (by simp)) db1 st1 c1 heq1
    obtain ⟨hposts2, hruns2, ⟨ext2, hext2, hlen2⟩, hnew2, hdup2, hev'⟩ :=
      ih db1 st1 c1 hev1
        (by
          intro g hg doc hdoc u hu
          have := hcov g (by simp [hg]) doc hdoc u hu
          rwa [urnTaken_posts_congr hposts1])
        db' st' c' heq
    refine ⟨by rw [hposts2, hposts1], by rw [hruns2, hruns1], ?_, ?_, ?_, hev'⟩
    · refine ⟨ext1 ++ ext2, ?_, ?_⟩
      · rw [hext2, hext1, List.append_assoc]
      · rw [List.length_append, hlen1, hlen2, allDocs_cons,
          countResolvable_append]
    · rw [hnew2, hnew1]
    · rw [hdup2, hdup1, allDocs_cons, countResolvable_append]
      omega

lemma insertRun_runs {db db1 : DB} {r : RunRow}
    (h : insertRun db r = some db1) :
    db1 = { db with runs := db.runs ++ [r] } := by
  unfold insertRun at h
  split at h
  · simp at h
  · exact (Option.some.inj h).symm

/-! ## Claims about the ingestion pipeline -/

/-- C1: re-importing the same directory with a collision-free generator
and a valid second run id counts no `new` posts, counts one `duplicates`
per resolvable document, leaves the posts table identical, and appends
exactly one fresh Observation per resolvable document (Observations are
never deduplicated). -/
theorem c1_reimport_idempotent_on_posts
    (gen : Nat → String) (db0 : DB) (c0 : Nat) (files : List JsonFile)
    (rid1 rid2 now1 now2 : String) (st1 st2 : Stats) (db1 db2 : DB)
    (c1 c2 : Nat)
    (hf : FreshGen gen db0)
    (hr2 : runIdTaken db0 rid2 = true)
    (h1 : import_directory db0 files (some rid1) gen c0 now1 =
      some (st1, rid1, db1, c1))
    (h2 : import_directory db1 files (some rid2) gen c1 now2 =
      some (st2, rid2, db2, c2)) :
    st2.new = 0 ∧ st2.duplicates = countResolvable (allDocs files) ∧
    db2.posts = db1.posts ∧
    ∃ ext, db2.downloads = db1.downloads ++ ext ∧
      ext.length = countResolvable (allDocs files) := by
  unfold import_directory at h1 h2
  dsimp only at h1 h2
  rcases heqf1 : files.foldl (processFile gen rid1 now1)
      (db0, ⟨0, 0, 0, 0⟩, c0) with ⟨db1x, st1x, c1x⟩
  rw [heqf1] at h1
  simp only [Option.some.injEq, Prod.mk.injEq] at h1
  obtain ⟨rfl, -, rfl, rfl⟩ := h1
  obtain ⟨hev1, -, hcov⟩ :=
    foldFiles_cover hf files db0 ⟨0, 0, 0, 0⟩ c0
      (Evolves_refl gen db0 c0) db1x st1x c1x heqf1
  rcases heqf2 : files.foldl (processFile gen rid2 now2)
      (db1x, ⟨0, 0, 0, 0⟩, c1x) with ⟨db2x, st2x, c2x⟩
  rw [heqf2] at h2
  simp only [Option.some.injEq, Prod.mk.injEq] at h2
  obtain ⟨rfl, -, rfl, rfl⟩ := h2
  obtain ⟨hposts, -, hext, hnew, hdup, -⟩ :=
    foldFiles_dup hf hr2 files db1x ⟨0, 0, 0, 0⟩ c1x hev1 hcov
      db2x st2x c2x heqf2
  exact ⟨hnew, by rw [hdup]; simp, hposts, hext⟩

/-- Witness for C1: importing one single-record file twice into a store
that is empty apart from its Run row yields exactly one Post and exactly
two Observations; the second run reports `new = 0` and `duplicates = 1`. -/
theorem c1_reimport_idempotent_on_posts_witness :
    FreshGen exGen exDB0 ∧ runIdTaken exDB0 "run-1" = true ∧
    import_directory exDB0 exFiles (some "run-1") exGen 0 "t1" =
      some (⟨1, 1, 0, 0⟩, "run-1", exDB1, 2) ∧
    import_directory exDB1 exFiles (some "run-1") exGen 2 "t2" =
      some (⟨1, 0, 1, 0⟩, "run-1", exDB2, 3) ∧
    ((⟨1, 0, 1, 0⟩ : Stats).new = 0 ∧
      (⟨1, 0, 1, 0⟩ : Stats).duplicates = countResolvable (allDocs exFiles) ∧
      exDB2.posts = exDB1.posts ∧
      ∃ ext, exDB2.downloads = exDB1.downloads ++ ext ∧
        ext.length = countResolvable (allDocs exFiles)) ∧
    exDB2.posts.length = 1 ∧ exDB2.downloads.length = 2 := by
  have hd : ∀ n : Nat, (exGen n).data = List.replicate (n + 1) 'x' :=
    fun n => rfl
  have hf : FreshGen exGen exDB0 := by
    constructor
    · intro i j hij hcon
      apply hij
      have h2 := congrArg (fun s : String => s.data.length) hcon
      simp only [hd, List.length_replicate] at h2
      omega
    · intro n
      refine ⟨by simp [exDB0], by simp [exDB0], ?_⟩
      intro r hr
      simp only [exDB0, List.mem_singleton] at hr
      subst hr
      intro hcon
      have h2 : ("run-1" : String).data = 'x' :: List.replicate n 'x' := by
        have h3 := congrArg String.data hcon
        rw [hd n, List.replicate_succ] at h3
        exact h3
      have h4 : (some 'r' : Option Char) = some 'x' := congrArg List.head? h2
      exact absurd (Option.some.inj h4) (by decide)
  refine ⟨hf, by decide, by decide, by decide, ?_, by decide, by decide⟩
  exact c1_reimport_idempotent_on_posts exGen exDB0 0 exFiles "run-1" "run-1"
    "t1" "t2" ⟨1, 1, 0, 0⟩ ⟨1, 0, 1, 0⟩ exDB1 exDB2 2 3 hf (by decide)
    (by decide) (by decide)

/-- C2: after any `import_directory` invocation the store still holds at
most one Post per (platform, URN); and whenever a document's resolved URN
finds an already-stored Post, the step reuses that Post's identifier for
the Observation (if one is persisted) and inserts no second Post row. -/
theorem c2_post_uniqueness_invariant
    (db : DB) (files : List JsonFile) (runId : Option String)
    (gen : Nat → String) (c : Nat) (now : String) (st : Stats)
    (rid : String) (db' : DB) (c' : Nat)
    (himp : import_directory db files runId gen c now = some (st, rid, db', c'))
    (hinv : db.posts.Pairwise
      (fun p q => (p.platform, p.urn) ≠ (q.platform, q.urn))) :
    db'.posts.Pairwise
      (fun p q => (p.platform, p.urn) ≠ (q.platform, q.urn)) ∧
    ∀ (gen2 : Nat → String) (rid2 fpath2 now2 : String) (dbx : DB)
      (stx : Stats) (cx : Nat) (doc : PostDoc) (u : String) (p : PostRow),
      urnKey doc = some u →
      dbx.posts.find? (fun q => q.urn == u) = some p →
      (processDoc gen2 rid2 fpath2 now2 (dbx, stx, cx) doc).1.posts =
        dbx.posts ∧
      ((processDoc gen2 rid2 fpath2 now2 (dbx, stx, cx) doc).1.downloads =
          dbx.downloads ∨
        (processDoc gen2 rid2 fpath2 now2 (dbx, stx, cx) doc).1.downloads =
          dbx.downloads ++
            [mkDownloadRow (gen2 cx) p.post_id rid2 doc fpath2 now2]) := by
  constructor
  · unfold import_directory at himp
    dsimp only at himp
    match runId with
    | some rid0 =>
      dsimp only at himp
      rcases heqf : files.foldl (processFile gen rid0 now)
          (db, ⟨0, 0, 0, 0⟩, c) with ⟨dbx, stx, cx⟩
      rw [heqf] at himp
      simp only [Option.some.injEq, Prod.mk.injEq] at himp
      obtain ⟨-, -, rfl, -⟩ := himp
      have := foldFiles_pairwise gen rid0 now files db ⟨0, 0, 0, 0⟩ c hinv
      rwa [heqf] at this
    | none =>
      dsimp only at himp
      match hins : insertRun db (mkRunRow (gen c) now) with
      | none => rw [hins] at himp; simp at himp
      | some db0 =>
        rw [hins] at himp
        dsimp only at himp
        rcases heqf : files.foldl (processFile gen (gen c) now)
            (db0, ⟨0, 0, 0, 0⟩, c + 1) with ⟨dbx, stx, cx⟩
        rw [heqf] at himp
        simp only [Option.some.injEq, Prod.mk.injEq] at himp
        obtain ⟨-, -, rfl, -⟩ := himp
        have hinv0 : db0.posts.Pairwise
            (fun p q => (p.platform, p.urn) ≠ (q.platform, q.urn)) := by
          rw [insertRun_runs hins]
          exact hinv
        have := foldFiles_pairwise gen (gen c) now files db0 ⟨0, 0, 0, 0⟩
          (c + 1) hinv0
        rwa [heqf] at this
  · intro gen2 rid2 fpath2 now2 dbx stx cx doc u p hu hfind
    rw [processDoc_dup hu hfind]
    match hins : insertDownload dbx
        (mkDownloadRow (gen2 cx) p.post_id rid2 doc fpath2 now2) with
    | some db2 =>
      rw [attachDownload_ok hins]
      have hd := insertDownload_downloads hins
      exact ⟨by rw [hd], Or.inr (by rw [hd])⟩
    | none =>
      rw [attachDownload_fail hins]
      exact ⟨rfl, Or.inl rfl⟩

/-- Witness for C2: one import over the single-record scenario, and the
duplicate step on the store already holding the record's URN. -/
theorem c2_post_uniqueness_invariant_witness :
    import_directory exDB0 exFiles (some "run-1") exGen 0 "t1" =
      some (⟨1, 1, 0, 0⟩, "run-1", exDB1, 2) ∧
    exDB0.posts.Pairwise
      (fun p q => (p.platform, p.urn) ≠ (q.platform, q.urn)) ∧
    exDB1.posts.Pairwise
      (fun p q => (p.platform, p.urn) ≠ (q.platform, q.urn)) ∧
    urnKey exDoc = some "urn:li:1" ∧
    exDB1.posts.find? (fun q => q.urn == "urn:li:1") =
      some (mkPostRow "x" "urn:li:1" exDoc "t1") ∧
    (processDoc exGen "run-1" "a.json" "t2" (exDB1, ⟨0, 0, 0, 0⟩, 2)
        exDoc).1.posts = exDB1.posts := by
  have h := c2_post_uniqueness_invariant exDB0 exFiles (some "run-1") exGen 0
    "t1" ⟨1, 1, 0, 0⟩ "run-1" exDB1 2 (by decide) (by decide)
  refine ⟨by decide, by decide, h.1, by decide, by decide, ?_⟩
  exact (h.2 exGen "run-1" "a.json" "t2" exDB1 ⟨0, 0, 0, 0⟩ 2 exDoc "urn:li:1"
    (mkPostRow "x" "urn:li:1" exDoc "t1") (by decide) (by decide)).1

/-- Counterexample for C4: a resolvable document whose new-Post insert
hits a persistence conflict (the drawn `post_id` already exists) is
counted as an error and `continue`d past - zero Observations are
created, not one. -/
theorem c4_observation_counterexample :
    urnKey ⟨some "urn:b", none, none, none, none, none, none, none⟩ =
      some "urn:b" ∧
    import_directory
        ⟨[mkPostRow "p-1" "urn:a" exDoc "t0"], [], [mkRunRow "run-1" "t0"]⟩
        [⟨"b.json", FileContent.arr
          [⟨some "urn:b", none, none, none, none, none, none, none⟩]⟩]
        (some "run-1") (fun _ => "p-1") 0 "t1" =
      some (⟨1, 0, 0, 1⟩, "run-1",
        ⟨[mkPostRow "p-1" "urn:a" exDoc "t0"], [], [mkRunRow "run-1" "t0"]⟩,
        1) ∧
    (⟨[mkPostRow "p-1" "urn:a" exDoc "t0"], [], [mkRunRow "run-1" "t0"]⟩ :
      DB).downloads.length = 0 := by
  refine ⟨by decide, by decide, by decide⟩

/-- C4 (amended): for a resolvable document, when the lookup finds an
existing Post or the new Post is inserted successfully, exactly one
Observation insert referencing this Run and this Post is attempted;
if it succeeds exactly one Observation row is appended, and if it fails
`errors` increments while a just-inserted Post is kept (no rollback).
When the new-Post insert itself conflicts, no Observation is created and
`errors` increments. -/
theorem c4_observation_per_resolved_document
    (gen : Nat → String) (rid fpath now : String) (db : DB) (st : Stats)
    (c : Nat) (doc : PostDoc) (u : String) (hu : urnKey doc = some u) :
    (∀ p, db.posts.find? (fun q => q.urn == u) = some p →
      (∀ db2, insertDownload db
          (mkDownloadRow (gen c) p.post_id rid doc fpath now) = some db2 →
        processDoc gen rid fpath now (db, st, c) doc =
          ({ db with downloads := db.downloads ++
              [mkDownloadRow (gen c) p.post_id rid doc fpath now] },
            ⟨st.processed + 1, st.new, st.duplicates + 1, st.errors⟩,
            c + 1)) ∧
      (insertDownload db
          (mkDownloadRow (gen c) p.post_id rid doc fpath now) = none →
        processDoc gen rid fpath now (db, st, c) doc =
          (db, ⟨st.processed + 1, st.new, st.duplicates + 1, st.errors + 1⟩,
            c + 1))) ∧
    (db.posts.find? (fun q => q.urn == u) = none →
      (∀ db1, insertPost db (mkPostRow (gen c) u doc now) = some db1 →
        (∀ db2, insertDownload db1
            (mkDownloadRow (gen (c + 1)) (gen c) rid doc fpath now) =
              some db2 →
          processDoc gen rid fpath now (db, st, c) doc =
            ({ db with
                posts := db.posts ++ [mkPostRow (gen c) u doc now],
                downloads := db.downloads ++
                  [mkDownloadRow (gen (c + 1)) (gen c) rid doc fpath now] },
              ⟨st.processed + 1, st.new + 1, st.duplicates, st.errors⟩,
              c + 2)) ∧
        (insertDownload db1
            (mkDownloadRow (gen (c + 1)) (gen c) rid doc fpath now) = none →
          processDoc gen rid fpath now (db, st, c) doc =
            (db1, ⟨st.processed + 1, st.new + 1, st.duplicates,
              st.errors + 1⟩, c + 2) ∧
          db1.posts = db.posts ++ [mkPostRow (gen c) u doc now])) ∧
      (insertPost db (mkPostRow (gen c) u doc now) = none →
        processDoc gen rid fpath now (db, st, c) doc =
          (db, ⟨st.processed + 1, st.new, st.duplicates, st.errors + 1⟩,
            c + 1))) := by
  constructor
  · intro p hfind
    constructor
    · intro db2 hins
      rw [processDoc_dup hu hfind, attachDownload_ok hins,
        insertDownload_downloads hins]
    · intro hins
      rw [processDoc_dup hu hfind, attachDownload_fail hins]
  · intro hfind
    constructor
    · intro db1 hip
      obtain ⟨hdb1, -, -⟩ := insertPost_posts hip
      constructor
      · intro db2 hins
        rw [processDoc_new hu hfind, hip]
        dsimp only
        rw [attachDownload_ok hins, insertDownload_downloads hins, hdb1]
      · intro hins
        rw [processDoc_new hu hfind, hip]
        dsimp only
        rw [attachDownload_fail hins]
        exact ⟨rfl, by rw [hdb1]⟩
    · intro hip
      rw [processDoc_new hu hfind, hip]

/-- Witness for C4 at the duplicate branch of the single-record
scenario: the second sighting of the record appends exactly one
Observation referencing the run and the stored Post. -/
theorem c4_observation_per_resolved_document_witness :
    urnKey exDoc = some "urn:li:1" ∧
    exDB1.posts.find? (fun q => q.urn == "urn:li:1") =
      some (mkPostRow "x" "urn:li:1" exDoc "t1") ∧
    insertDownload exDB1
        (mkDownloadRow "xxx" "x" "run-1" exDoc "a.json" "t2") = some exDB2 ∧
    processDoc exGen "run-1" "a.json" "t2" (exDB1, ⟨1, 0, 0, 0⟩, 2) exDoc =
      ({ exDB1 with downloads := exDB1.downloads ++
          [mkDownloadRow (exGen 2) (mkPostRow "x" "urn:li:1" exDoc
            "t1").post_id "run-1" exDoc "a.json" "t2"] },
        ⟨2, 0, 1, 0⟩, 3) := by
  refine ⟨by decide, by decide, by decide, ?_⟩
  exact ((c4_observation_per_resolved_document exGen "run-1" "a.json" "t2"
      exDB1 ⟨1, 0, 0, 0⟩ 2 exDoc "urn:li:1" (by decide)).1
    (mkPostRow "x" "urn:li:1" exDoc "t1") (by decide)).1 exDB2 (by decide)

/-- Counterexample for C5: when the new-Post insert succeeds but the
Observation insert fails (here: the drawn `download_id` collides with a
stored one), the same document increments both `new` and `errors`, so the
per-document outcome counters are not mutually exclusive and
`processed = new + duplicates + errors` fails. -/
theorem c5_counter_discipline_counterexample :
    import_directory
        ⟨[mkPostRow "p-0" "urn:z" exDoc "t0"],
          [mkDownloadRow "dl-1" "p-0" "run-1" exDoc "z.json" "t0"],
          [mkRunRow "run-1" "t0"]⟩
        [⟨"b.json", FileContent.arr
          [⟨some "urn:b", none, none, none, none, none, none, none⟩]⟩]
        (some "run-1") (fun n => if n = 0 then "p-9" else "dl-1") 0 "t1" =
      some (⟨1, 1, 0, 1⟩, "run-1",
        ⟨[mkPostRow "p-0" "urn:z" exDoc "t0",
            mkPostRow "p-9" "urn:b"
              ⟨some "urn:b", none, none, none, none, none, none, none⟩ "t1"],
          [mkDownloadRow "dl-1" "p-0" "run-1" exDoc "z.json" "t0"],
          [mkRunRow "run-1" "t0"]⟩, 2) ∧
    (⟨1, 1, 0, 1⟩ : Stats).processed ≠
      (⟨1, 1, 0, 1⟩ : Stats).new + (⟨1, 1, 0, 1⟩ : Stats).duplicates +
        (⟨1, 1, 0, 1⟩ : Stats).errors := by
  refine ⟨by decide, by decide⟩

/-- C5 (amended): each document increments `processed` exactly once, and
the outcome counters move by exactly one of: only `errors` (failed
resolution or new-Post conflict), only `duplicates`, only `new`, or one
of `duplicates`/`new` together with one `errors` when the Observation
insert fails — so `new` and `duplicates` are mutually exclusive, but
`errors` is not exclusive with them. -/
theorem c5_counter_discipline
    (gen : Nat → String) (rid fpath now : String) (db : DB) (st : Stats)
    (c : Nat) (doc : PostDoc) :
    (processDoc gen rid fpath now (db, st, c) doc).2.1.processed =
      st.processed + 1 ∧
    (((processDoc gen rid fpath now (db, st, c) doc).2.1.new = st.new ∧
      (processDoc gen rid fpath now (db, st, c) doc).2.1.duplicates =
        st.duplicates ∧
      (processDoc gen rid fpath now (db, st, c) doc).2.1.errors =
        st.errors + 1) ∨
    ((processDoc gen rid fpath now (db, st, c) doc).2.1.new = st.new ∧
      (processDoc gen rid fpath now (db, st, c) doc).2.1.duplicates =
        st.duplicates + 1 ∧
      (processDoc gen rid fpath now (db, st, c) doc).2.1.errors =
        st.errors) ∨
    ((processDoc gen rid fpath now (db, st, c) doc).2.1.new = st.new ∧
      (processDoc gen rid fpath now (db, st, c) doc).2.1.duplicates =
        st.duplicates + 1 ∧
      (processDoc gen rid fpath now (db, st, c) doc).2.1.errors =
        st.errors + 1) ∨
    ((processDoc gen rid fpath now (db, st, c) doc).2.1.new = st.new + 1 ∧
      (processDoc gen rid fpath now (db, st, c) doc).2.1.duplicates =
        st.duplicates ∧
      (processDoc gen rid fpath now (db, st, c) doc).2.1.errors =
        st.errors) ∨
    ((processDoc gen rid fpath now (db, st, c) doc).2.1.new = st.new + 1 ∧
      (processDoc gen rid fpath now (db, st, c) doc).2.1.duplicates =
        st.duplicates ∧
      (processDoc gen rid fpath now (db, st, c) doc).2.1.errors =
        st.errors + 1)) := by
  match hu : urnKey doc with
  | none =>
    rw [processDoc_unresolvable hu]
    exact ⟨rfl, Or.inl ⟨rfl, rfl, rfl⟩⟩
  | some u =>
    match hfind : db.posts.find? (fun q => q.urn == u) with
    | some p =>
      rw [processDoc_dup hu hfind]
      match hins : insertDownload db
          (mkDownloadRow (gen c) p.post_id rid doc fpath now) with
      | some db2 =>
        rw [attachDownload_ok hins]
        exact ⟨rfl, Or.inr (Or.inl ⟨rfl, rfl, rfl⟩)⟩
      | none =>
        rw [attachDownload_fail hins]
        exact ⟨rfl, Or.inr (Or.inr (Or.inl ⟨rfl, rfl, rfl⟩))⟩
    | none =>
      rw [processDoc_new hu hfind]
      match hip : insertPost db (mkPostRow (gen c) u doc now) with
      | none =>
        dsimp only
        exact ⟨rfl, Or.inl ⟨rfl, rfl, rfl⟩⟩
      | some db1 =>
        dsimp only
        match hins : insertDownload db1
            (mkDownloadRow (gen (c + 1)) (gen c) rid doc fpath now) with
        | some db2 =>
          rw [attachDownload_ok hins]
          exact ⟨rfl, Or.inr (Or.inr (Or.inr (Or.inl ⟨rfl, rfl, rfl⟩)))⟩
        | none =>
          rw [attachDownload_fail hins]
          exact ⟨rfl, Or.inr (Or.inr (Or.inr (Or.inr ⟨rfl, rfl, rfl⟩)))⟩

lemma truthyOptStr_iff {em : Option String} :
    truthyOptStr em = true ↔ ∃ m, em = some m ∧ m ≠ "" := by
  match em with
  | none => simp [truthyOptStr]
  | some s =>
    simp only [truthyOptStr, Bool.not_eq_true', beq_eq_false_iff_ne,
      ne_eq, Option.some.injEq]
    constructor
    · intro h; exact ⟨s, rfl, h⟩
    · rintro ⟨m, rfl, h⟩; exact h

lemma updateRunRow_overwrite (st1 st2 : Stats) (em1 em2 : Option String)
    (t1 t2 rid : String) (r : RunRow) :
    updateRunRow st2 em2 t2 rid (updateRunRow st1 em1 t1 rid r) =
      updateRunRow st2 em2 t2 rid r := by
  unfold updateRunRow
  by_cases h : r.run_id == rid
  · rw [if_pos h, if_pos h, if_pos h]
  · rw [if_neg h, if_neg h]

/-- Counterexample for C6: completing the same Run twice does not signal
any error — the second call succeeds and simply re-applies the UPDATE,
overwriting the terminal fields with values derived from its own
arguments. -/
theorem c6_double_complete_counterexample :
    (complete_download_run exDB0 "run-1" ⟨1, 1, 0, 0⟩ none "t1").bind
        (fun db1 => complete_download_run db1 "run-1" ⟨2, 0, 2, 0⟩ none
          "t2") =
      some ⟨[], [],
        [⟨"run-1", "t0", some "t2", "completed", "manage_data.py",
          "linkedin", "{}", some 2, some 0, some 0, none, "t0"⟩]⟩ ∧
    (complete_download_run exDB0 "run-1" ⟨1, 1, 0, 0⟩ none "t1").bind
        (fun db1 => complete_download_run db1 "run-1" ⟨2, 0, 2, 0⟩ none
          "t2") ≠ none := by
  refine ⟨by decide, by decide⟩

/-- C6 (amended): `complete_download_run` has no failure path and is not
guarded against double completion: a second call on the same Run always
succeeds silently and overwrites the terminal fields as if the first
call had not happened. -/
theorem c6_double_complete_silent (db : DB) (rid : String)
    (st1 st2 : Stats) (em1 em2 : Option String) (t1 t2 : String) :
    (complete_download_run db rid st1 em1 t1).bind
        (fun db1 => complete_download_run db1 rid st2 em2 t2) =
      some { db with runs := db.runs.map (updateRunRow st2 em2 t2 rid) } := by
  unfold complete_download_run
  rw [Option.some_bind]
  simp only [Option.some.injEq]
  congr 1
  rw [List.map_map]
  apply List.map_congr_left
  intro r _
  exact updateRunRow_overwrite st1 st2 em1 em2 t1 t2 rid r

/-- C7: after `complete_download_run`, a Run row matching the given id
has status `failed` iff the error count is positive or a non-empty abort
message was supplied (Python treats an empty message as absent), and
`completed` otherwise; the status is derived from exactly these inputs. -/
theorem c7_derived_terminal_status (db : DB) (rid : String) (st : Stats)
    (em : Option String) (now : String) (r : RunRow)
    (hr : r ∈ db.runs) (hid : r.run_id = rid) :
    ∃ db2, complete_download_run db rid st em now = some db2 ∧
      updateRunRow st em now rid r ∈ db2.runs ∧
      ((updateRunRow st em now rid r).status = "failed" ↔
        0 < st.errors ∨ ∃ m, em = some m ∧ m ≠ "") ∧
      ((updateRunRow st em now rid r).status = "completed" ↔
        ¬(0 < st.errors ∨ ∃ m, em = some m ∧ m ≠ "")) := by
  refine ⟨{ db with runs := db.runs.map (updateRunRow st em now rid) },
    rfl, List.mem_map_of_mem _ hr, ?_⟩
  unfold updateRunRow
  rw [if_pos (by simp [hid])]
  by_cases hcond : (truthyOptStr em || decide (0 < st.errors)) = true
  · rw [if_pos hcond]
    dsimp only
    have hrhs : 0 < st.errors ∨ ∃ m, em = some m ∧ m ≠ "" := by
      rcases Bool.or_eq_true_iff.mp hcond with h | h
      · exact Or.inr (truthyOptStr_iff.mp h)
      · exact Or.inl (of_decide_eq_true h)
    refine ⟨⟨fun _ => hrhs, fun _ => rfl⟩,
      ⟨fun hc => absurd hc (by decide), fun hn => absurd hrhs hn⟩⟩
  · rw [if_neg hcond]
    have hrhs : ¬(0 < st.errors ∨ ∃ m, em = some m ∧ m ≠ "") := by
      rintro (h | h)
      · exact hcond (Bool.or_eq_true_iff.mpr (Or.inr (decide_eq_true h)))
      · exact hcond (Bool.or_eq_true_iff.mpr (Or.inl (truthyOptStr_iff.mpr h)))
    dsimp only
    refine ⟨⟨fun hc => absurd hc (by decide), fun hr => absurd hr hrhs⟩,
      ⟨fun _ => hrhs, fun _ => rfl⟩⟩

/-- Witness for C7: completing a run with two errors and no abort
message marks it `failed`. -/
theorem c7_derived_terminal_status_witness :
    mkRunRow "run-1" "t0" ∈ exDB0.runs ∧
    (mkRunRow "run-1" "t0").run_id = "run-1" ∧
    ∃ db2, complete_download_run exDB0 "run-1" ⟨3, 1, 0, 2⟩ none "t1" =
        some db2 ∧
      updateRunRow ⟨3, 1, 0, 2⟩ none "t1" "run-1" (mkRunRow "run-1" "t0") ∈
        db2.runs ∧
      ((updateRunRow ⟨3, 1, 0, 2⟩ none "t1" "run-1"
          (mkRunRow "run-1" "t0")).status = "failed" ↔
        0 < (⟨3, 1, 0, 2⟩ : Stats).errors ∨
          ∃ m, (none : Option String) = some m ∧ m ≠ "") ∧
      ((updateRunRow ⟨3, 1, 0, 2⟩ none "t1" "run-1"
          (mkRunRow "run-1" "t0")).status = "completed" ↔
        ¬(0 < (⟨3, 1, 0, 2⟩ : Stats).errors ∨
          ∃ m, (none : Option String) = some m ∧ m ≠ "")) :=
  ⟨by decide, by decide,
    c7_derived_terminal_status exDB0 "run-1" ⟨3, 1, 0, 2⟩ none "t1"
      (mkRunRow "run-1" "t0") (by decide) (by decide)⟩

/-- Counterexample for C8: a file that parses as JSON but has a
non-array, non-object top level is skipped silently — the whole run ends
with zero errors, not one. -/
theorem c8_malformed_shape_counterexample :
    import_directory exDB0 [⟨"c.json", FileContent.other⟩] (some "run-1")
        exGen 0 "t1" =
      some (⟨0, 0, 0, 0⟩, "run-1", exDB0, 0) ∧
    (⟨0, 0, 0, 0⟩ : Stats).errors ≠ 1 := by
  refine ⟨by decide, by decide⟩

/-- C8 (amended): a file whose top-level JSON value is neither an array
nor an object is skipped whole with no change to the store or to any
counter (`errors` included), and ingestion continues with the remaining
files. -/
theorem c8_malformed_shape_skipped (gen : Nat → String)
    (rid now fpath : String) (acc : DB × Stats × Nat) (db : DB)
    (files : List JsonFile) (runId : Option String) (c : Nat) :
    processFile gen rid now acc ⟨fpath, FileContent.other⟩ = acc ∧
    import_directory db (⟨fpath, FileContent.other⟩ :: files) runId gen c
        now =
      import_directory db files runId gen c now := by
  constructor
  · rfl
  · unfold import_directory
    match runId with
    | some rid0 =>
      dsimp only
      rw [List.foldl_cons]
      have hstep : processFile gen rid0 now (db, ⟨0, 0, 0, 0⟩, c)
          ⟨fpath, FileContent.other⟩ = (db, ⟨0, 0, 0, 0⟩, c) := rfl
      rw [hstep]
    | none =>
      dsimp only
      match insertRun db (mkRunRow (gen c) now) with
      | none => rfl
      | some db0 =>
        dsimp only
        rw [List.foldl_cons]
        have hstep : processFile gen (gen c) now (db0, ⟨0, 0, 0, 0⟩, c + 1)
            ⟨fpath, FileContent.other⟩ = (db0, ⟨0, 0, 0, 0⟩, c + 1) := rfl
        rw [hstep]

/-- C10: a document whose URN resolution is falsy (absent, or present
but equal to the empty string — e.g. `full_urn` missing and a scalar
`urn` field holding `""`) increments `processed` and `errors` only and
writes no Post row and no Observation row. -/
theorem c10_falsy_urn_unresolvable (gen : Nat → String)
    (rid fpath now : String) (db : DB) (st : Stats) (c : Nat)
    (doc : PostDoc) (h : truthyOptStr (get_post_urn doc) = false) :
    processDoc gen rid fpath now (db, st, c) doc =
      (db, ⟨st.processed + 1, st.new, st.duplicates, st.errors + 1⟩, c) ∧
    ∀ d : PostDoc, d.full_urn = none → d.urn = some (UrnVal.scalar "") →
      get_post_urn d = some "" ∧ truthyOptStr (get_post_urn d) = false := by
  constructor
  · apply processDoc_unresolvable
    unfold urnKey
    match hg : get_post_urn doc with
    | none => rfl
    | some s =>
      rw [hg] at h
      have hs : s = "" := by simpa [truthyOptStr] using h
      dsimp only
      rw [if_pos hs]
  · intro d h1 h2
    constructor
    · unfold get_post_urn
      rw [h1, h2]
      rfl
    · unfold get_post_urn
      rw [h1, h2]
      rfl

/-- Witness for C10: a document with no `full_urn` and a scalar `urn`
equal to `""` resolves to the falsy `some ""` and is dropped with one
error, leaving the store untouched. -/
theorem c10_falsy_urn_unresolvable_witness :
    truthyOptStr (get_post_urn
      ⟨none, some (UrnVal.scalar ""), none, none, none, none, none, none⟩) =
      false ∧
    processDoc exGen "run-1" "b.json" "t1" (exDB0, ⟨0, 0, 0, 0⟩, 0)
        ⟨none, some (UrnVal.scalar ""), none, none, none, none, none, none⟩ =
      (exDB0, ⟨1, 0, 0, 1⟩, 0) ∧
    get_post_urn
      ⟨none, some (UrnVal.scalar ""), none, none, none, none, none, none⟩ =
      some "" :=
  ⟨by decide,
    (c10_falsy_urn_unresolvable exGen "run-1" "b.json" "t1" exDB0 ⟨0, 0, 0, 0⟩
      0 ⟨none, some (UrnVal.scalar ""), none, none, none, none, none, none⟩
      (by decide)).1,
    by decide⟩

end Spec2Proof
